import Mathlib

/-!
Verification development for the hx hex editor (src/editor.c, src/undo.c,
src/util.c).  The data model and the operations below are a shallow
embedding of the C sources: C `int` values are modeled as `Int`, C
`unsigned` values as `Nat` (conversions between the two are written out
where the C converts), byte buffers (`char* contents` plus
`int content_length`) as `List Nat`, and the undo action list as the
sequence of nodes from head to tail together with the cursor position.
Machine arithmetic that can wrap is made explicit with `emod (2 ^ 32)`
(see `u32`); C integer division and remainder are the truncating
`Int.tdiv` / `Int.tmod`.
-/

namespace Hx

/-- Status severities, editor.h `enum status_severity`. -/
inductive status_severity
| info
| warning
| error
deriving DecidableEq, Repr

/-- Search directions, editor.h `enum search_direction`. -/
inductive search_direction
| forward
| backward
deriving DecidableEq, Repr

/-- Action types, undo.h `enum action_type`. -/
inductive action_type
| delete
| insert
| replace
| append
deriving DecidableEq, Repr

/-- Cursor position statuses, undo.h `enum curr_pos`. -/
inductive curr_pos
| before_head
| node
| after_tail
| nothing
deriving DecidableEq, Repr

/-- Parse error classifications for the search-string parser.  The enum
`parse_errors` itself (PARSE_SUCCESS, PARSE_INVALID_HEX, PARSE_INVALID_ESCAPE,
PARSE_INCOMPLETE_BACKSLASH, PARSE_INCOMPLETE_HEX) is declared in a header that
is not part of src/; the constants are referenced by src/editor.c.  Success is
modeled with `Except.ok`, so only the four error values appear here. -/
inductive parse_errors
| invalid_hex
| invalid_escape
| incomplete_backslash
| incomplete_hex
deriving DecidableEq, Repr

/-- Value of a C `unsigned int` obtained from an `int` expression
(conversion wraps modulo 2^32). -/
def u32 (i : Int) : Int := i.emod (2 ^ 32)

/-- util.c `clampi` (lines 70-78). -/
def clampi (i min max : Int) : Int :=
  if i < min then min
  else if i > max then max
  else i

/-- ctype `isxdigit` restricted to the ASCII characters the editor feeds it. -/
def isxdigit (c : Char) : Bool :=
  ('0' ≤ c && c ≤ '9') || ('a' ≤ c && c ≤ 'f') || ('A' ≤ c && c ≤ 'F')

/-- ctype `isdigit` restricted to ASCII. -/
def isdigit (c : Char) : Bool := '0' ≤ c && c ≤ '9'

/-- One iteration of the digit decoding in util.c `hex2bin` (lines 26-36):
value of one hex digit, any other character counts as 0. -/
def hex_digit_value (c : Char) : Nat :=
  if '0' ≤ c ∧ c ≤ '9' then c.toNat - '0'.toNat
  else if 'a' ≤ c ∧ c ≤ 'f' then 10 + c.toNat - 'a'.toNat
  else if 'A' ≤ c ∧ c ≤ 'F' then 10 + c.toNat - 'A'.toNat
  else 0

/-- util.c `hex2bin` (lines 24-39): reads exactly two characters; the loop
computes `ret = n1 + (n0 + 0*16)*16`. -/
def hex2bin (c0 c1 : Char) : Nat :=
  hex_digit_value c1 + hex_digit_value c0 * 16

/-- util.c `is_pos_num` (lines 41-48): every character before the NUL is a
digit (an empty string vacuously passes). -/
def is_pos_num (s : List Char) : Bool := s.all isdigit

/-- util.c `is_hex` (lines 50-58).  Note the loop uses `*++ptr`, so the first
character is never examined. -/
def is_hex (s : List Char) : Bool := (s.drop 1).all isxdigit

/-- Decimal value of the leading digits of a string (helper for `str2int`
and `hex2int`, which call `strtoimax`). -/
def dec_prefix_value : List Char → Nat → Nat
| [], acc => acc
| c :: rest, acc =>
  if isdigit c then dec_prefix_value rest (acc * 10 + (c.toNat - '0'.toNat)) else acc

/-- Base-16 value of the leading hex digits of a string. -/
def hex_prefix_value : List Char → Nat → Nat
| [], acc => acc
| c :: rest, acc =>
  if isxdigit c then hex_prefix_value rest (acc * 16 + hex_digit_value c) else acc

/-- util.c `str2int` (lines 80-91): `strtoimax` base 10 on the digit prefix,
out-of-range values replaced by the default.  Leading whitespace/sign and the
ERANGE overflow path of `strtoimax` are not exercised by any modeled input and
are not modeled. -/
def str2int (s : List Char) (min max default : Int) : Int :=
  let x : Int := (dec_prefix_value s 0 : Int)
  if x < min ∨ x > max then default else x

/-- util.c `hex2int` (lines 60-68): `strtoimax` base 16 on the hex-digit
prefix (same caveats as `str2int`). -/
def hex2int (s : List Char) : Int := (hex_prefix_value s 0 : Int)

/-- undo.h `struct action` (lines 40-47): the prev/next pointers are
represented by the position of the action inside the `action_list` sequence
below.  `offset` is a C `int`, `c` a C `unsigned char`. -/
structure action where
  act : action_type
  offset : Int
  c : Nat
deriving DecidableEq, Repr

/-- undo.h `struct action_list` (lines 61-66).  `acts` is the sequence of
heap nodes from `head` to `tail`.  The `curr` pointer together with
`curr_status` is represented by `status` plus `pos`: when `status = node`,
`curr` is the `pos`-th node (1-based, so `pos = acts.length` means
`curr == tail`); when `status = before_head`, `pos = 0`; in the `after_tail`
and `nothing` states `curr` is NULL and `pos` is meaningless. -/
structure action_list where
  acts : List action
  pos : Nat
  status : curr_pos
deriving DecidableEq, Repr

/-- undo.c `action_list_init` (lines 26-32).  The C code leaves `curr_status`
uninitialized; it is taken to be NOTHING, the state describing an empty list
(head, tail and curr are all NULL). -/
def action_list_init : action_list := ⟨[], 0, .nothing⟩

/-- undo.c `action_list_size` (lines 152-159). -/
def action_list_size (l : action_list) : Nat := l.acts.length

/-- undo.c `action_list_add` (lines 34-71).  When the list is non-empty and
`curr != tail`, the nodes after `curr` are removed first via
`action_list_delete` (from `curr->next` when curr is a node, from `head` when
curr is before the head); then the new action is appended and becomes `curr`.
`curr == tail` holds exactly when `status = node ∧ pos = acts.length` (the
NULL curr of the before-head/after-tail states never equals the non-NULL
tail of a non-empty list). -/
def action_list_add (l : action_list) (ty : action_type) (offset : Int) (c : Nat) :
    action_list :=
  let kept : List action :=
    if l.acts ≠ [] ∧ ¬(l.status = .node ∧ l.pos = l.acts.length) then
      match l.status with
      | .node => l.acts.take l.pos
      | .before_head => []
      | _ => l.acts
    else l.acts
  { acts := kept ++ [⟨ty, offset, c⟩], pos := kept.length + 1, status := .node }

/-- undo.c `action_list_move` (lines 161-201). -/
def action_list_move (l : action_list) (direction : Int) : action_list :=
  if direction = 0 then l
  else if action_list_size l = 0 then l
  else if direction > 0 then
    match l.status with
    | .before_head => { l with pos := 1, status := .node }
    | .node =>
      -- curr = curr->next; NULL exactly when curr was the tail.
      if l.pos = l.acts.length then { l with status := .after_tail }
      else { l with pos := l.pos + 1 }
    | _ => l
  else
    match l.status with
    | .node =>
      -- curr = curr->prev; NULL exactly when curr was the head.
      if l.pos = 1 then { l with pos := 0, status := .before_head }
      else { l with pos := l.pos - 1 }
    | .after_tail => { l with pos := l.acts.length, status := .node }
    | _ => l

/-- Arrow directions passed to `editor_move_cursor` (the C uses the KEY_UP /
KEY_DOWN / KEY_LEFT / KEY_RIGHT codes from util.h). -/
inductive arrow_key
| up
| down
| left
| right
deriving DecidableEq, Repr

/-- editor.h `struct editor` (lines 48-75), restricted to the fields the
modeled operations read or write.  `contents` plus its length stand for the
`char* contents` / `int content_length` pair (the C keeps them in sync);
`status_message` holds the formatted text produced by `editor_statusmessage`.
Fields that only matter for rendering or raw input (`mode`, `filename`,
`inputbuffer`) are omitted; no modeled operation touches them.  `dirty` is
never initialized by `editor_init`; it starts out `false` (the buffer is
unmodified at startup). -/
structure editor where
  octets_per_line : Int
  grouping : Int
  line : Int
  cursor_x : Int
  cursor_y : Int
  screen_rows : Int
  screen_cols : Int
  dirty : Bool
  contents : List Nat
  status_severity : status_severity
  status_message : String
  searchstr : String
  undo_list : action_list
deriving DecidableEq, Repr

/-- The `content_length` field, kept equal to the length of `contents` by
every operation in editor.c. -/
def content_length (e : editor) : Int := (e.contents.length : Int)

/-- editor.c `editor_statusmessage` (lines 349-358), with the `vsnprintf`
formatting replaced by the already-formatted message text. -/
def editor_statusmessage (e : editor) (sev : status_severity) (msg : String) : editor :=
  { e with status_severity := sev, status_message := msg }

/-- editor.c `editor_offset_at_cursor` (lines 253-269).  The C computes the
signed expression `(cursor_y - 1 + line) * octets_per_line + (cursor_x - 1)`
and stores it in an `unsigned int`, hence the `u32`; `offset <= 0` on an
unsigned value means `offset == 0`, and the comparison with `content_length`
converts the (nonnegative) length to unsigned as well.  The returned unsigned
value converts back to `int`; all reachable values fit. -/
def editor_offset_at_cursor (e : editor) : Int :=
  let offset : Int :=
    u32 ((e.cursor_y - 1 + e.line) * e.octets_per_line + (e.cursor_x - 1))
  if offset ≤ 0 then 0
  else if u32 (content_length e) ≤ offset then content_length e - 1
  else offset

/-- editor.c `editor_cursor_at_offset` (lines 205-208); returns the (x, y)
pair written through the out-pointers.  C `int` division and remainder
truncate, hence `Int.tdiv` / `Int.tmod`. -/
def editor_cursor_at_offset (e : editor) (offset : Int) : Int × Int :=
  (Int.tmod offset e.octets_per_line + 1,
   Int.tdiv offset e.octets_per_line - e.line + 1)

/-- editor.c `editor_scroll` (lines 272-292). -/
def editor_scroll (e : editor) (units : Int) : editor :=
  let e := { e with line := e.line + units }
  let upper_limit : Int :=
    Int.tdiv (content_length e) e.octets_per_line - (e.screen_rows - 2)
  let e := if e.line ≥ upper_limit then { e with line := upper_limit } else e
  if e.line ≤ 0 then { e with line := 0 } else e

/-- editor.c `editor_scroll_to_offset` (lines 294-332).  The `offset`
parameter is a C `unsigned int`, modeled as `Nat`; `offset_min`/`offset_max`
are `unsigned int` variables assigned from signed arithmetic, hence `u32`.
The division `offset / octets_per_line` promotes to unsigned arithmetic; for
the nonnegative in-range values that reach it this agrees with `Int.tdiv`.
`clear_screen` style terminal output has no state effect. -/
def editor_scroll_to_offset (e : editor) (offset : Nat) : editor :=
  if (offset : Int) > u32 (content_length e) then
    editor_statusmessage e .error "Out of range"
  else
    let offset_min : Int := u32 (e.line * e.octets_per_line)
    let offset_max : Int := u32 (offset_min + e.screen_rows * e.octets_per_line)
    if offset_min ≤ (offset : Int) ∧ (offset : Int) ≤ offset_max then
      let xy := editor_cursor_at_offset e (offset : Int)
      { e with cursor_x := xy.1, cursor_y := xy.2 }
    else
      let e := { e with
        line := Int.tdiv (offset : Int) e.octets_per_line - Int.tdiv e.screen_rows 2 }
      let upper_limit : Int :=
        Int.tdiv (content_length e) e.octets_per_line - (e.screen_rows - 2)
      let e := if e.line ≥ upper_limit then { e with line := upper_limit } else e
      let e := if e.line ≤ 0 then { e with line := 0 } else e
      let xy := editor_cursor_at_offset e (offset : Int)
      { e with cursor_x := xy.1, cursor_y := xy.2 }

/-- editor.c `editor_move_cursor` (lines 25-93).  The final guard compares
the unsigned `offset` with `content_length - 1` (the signed value converts to
unsigned, hence `u32`). -/
def editor_move_cursor (e : editor) (dir : arrow_key) (amount : Int) : editor :=
  let e :=
    match dir with
    | .up => { e with cursor_y := e.cursor_y - amount }
    | .down => { e with cursor_y := e.cursor_y + amount }
    | .left => { e with cursor_x := e.cursor_x - amount }
    | .right => { e with cursor_x := e.cursor_x + amount }
  if e.cursor_x ≤ 1 ∧ e.cursor_y ≤ 1 ∧ e.line ≤ 0 then
    { e with cursor_x := 1, cursor_y := 1 }
  else
    let e :=
      if e.cursor_x < 1 then
        if e.cursor_y ≥ 1 then
          { e with cursor_y := e.cursor_y - 1, cursor_x := e.octets_per_line }
        else e
      else if e.cursor_x > e.octets_per_line then
        { e with cursor_y := e.cursor_y + 1, cursor_x := 1 }
      else e
    let e := if e.cursor_y ≤ 1 ∧ e.line ≤ 0 then { e with cursor_y := 1 } else e
    let e :=
      if e.cursor_y > e.screen_rows - 1 then
        editor_scroll { e with cursor_y := e.screen_rows - 1 } 1
      else if e.cursor_y < 1 ∧ e.line > 0 then
        editor_scroll { e with cursor_y := 1 } (-1)
      else e
    let offset : Int := u32 (editor_offset_at_cursor e)
    if offset ≥ u32 (content_length e - 1) then
      let xy := editor_cursor_at_offset e offset
      { e with cursor_x := xy.1, cursor_y := xy.2 }
    else e

/-- Contents update of editor.c `editor_insert_byte_at_offset` (lines
694-696): shift the bytes from `offset` on one place to the right and store
the new byte at `offset`. -/
def buf_insert (contents : List Nat) (offset : Nat) (x : Nat) : List Nat :=
  contents.take offset ++ [x] ++ contents.drop offset

/-- Contents update of editor.c `editor_delete_char_at_offset` (lines
232-242) on its defined domain `offset < contents.length`: the `memmove`
copies the bytes after `offset` one place to the left, and the `realloc` to
`content_length - 1` keeps the first `content_length - 1` bytes.  For
`offset ≥ contents.length` the C is undefined behaviour — the `memmove`
size `e->content_length - offset - 1` is computed in `unsigned` arithmetic
and underflows (see `delete_memmove_size`) — so no theorem below applies
this function outside that domain. -/
def buf_delete (contents : List Nat) (offset : Nat) : List Nat :=
  (contents.take offset ++ contents.drop (offset + 1)).take (contents.length - 1)

/-- The size argument of the `memmove` in `editor_delete_char_at_offset`
(editor.c line 238): `e->content_length - offset - 1`, where
`content_length` is a C `int` and `offset` an `unsigned int`, so the whole
expression is evaluated in `unsigned` arithmetic modulo `2 ^ 32`. -/
def delete_memmove_size (content_length : Int) (offset : Nat) : Int :=
  u32 (content_length - offset - 1)

/-- editor.c `editor_insert_byte_at_offset` (lines 683-703).  `offset` is an
`unsigned int` parameter; `if (after && e->content_length)` tests the length
as a truth value. -/
def editor_insert_byte_at_offset (e : editor) (offset : Nat) (x : Nat) (after : Bool) :
    editor :=
  let offset := if after ∧ e.contents.length ≠ 0 then offset + 1 else offset
  { e with contents := buf_insert e.contents offset x, dirty := true }

/-- editor.c `editor_delete_char_at_offset` (lines 232-242). -/
def editor_delete_char_at_offset (e : editor) (offset : Nat) : editor :=
  { e with contents := buf_delete e.contents offset }

/-- editor.c `editor_delete_char_at_cursor` (lines 211-230).  `offset` and
`old_length` are `unsigned int` locals assigned from signed values. -/
def editor_delete_char_at_cursor (e : editor) : editor :=
  let offset : Nat := (u32 (editor_offset_at_cursor e)).toNat
  let old_length : Nat := e.contents.length
  if content_length e ≤ 0 then
    editor_statusmessage e .warning "Nothing to delete"
  else
    let charat : Nat := e.contents.getD offset 0
    let e := editor_delete_char_at_offset e offset
    let e := { e with dirty := true }
    let e := if offset ≥ old_length - 1 then editor_move_cursor e .left 1 else e
    { e with undo_list := action_list_add e.undo_list .delete (offset : Int) charat }

/-- editor.c `editor_increment_byte` (lines 244-250).  The byte addition
`e->contents[offset] += amount` wraps modulo 2^8 (the byte is handled through
`unsigned char` views elsewhere); note that the function does not touch
`dirty`. -/
def editor_increment_byte (e : editor) (amount : Int) : editor :=
  let offset : Nat := (u32 (editor_offset_at_cursor e)).toNat
  let prev : Nat := e.contents.getD offset 0
  let e := { e with contents := e.contents.set offset (((prev : Int) + amount).emod 256).toNat }
  { e with undo_list := action_list_add e.undo_list .replace (offset : Int) prev }

/-- editor.c `editor_undo` (lines 1188-1232).  `last_action` is captured
from `curr` before the AFTER_TAIL move-back, exactly as in the C; when the
cursor is not on a node that pointer is NULL (`none`).  In the branch where
the C would dereference the stale NULL pointer the state is returned
unchanged; that branch is unreachable from the initial state (claim C9).
The trailing status message (`Reverted ...`) is abbreviated. -/
def editor_undo (e : editor) : editor :=
  let last_action : Option action :=
    match e.undo_list.status with
    | .node => e.undo_list.acts[e.undo_list.pos - 1]?
    | _ => none
  let e :=
    if e.undo_list.status = .after_tail then
      { e with undo_list := action_list_move e.undo_list (-1) }
    else e
  if e.undo_list.status ≠ .node then
    editor_statusmessage e .info "No action to undo"
  else
    match last_action with
    | none => e
    | some a =>
      let old_contents : Nat := e.contents.getD a.offset.toNat 0
      let e :=
        match a.act with
        | .append => editor_delete_char_at_offset e (a.offset.toNat + 1)
        | .delete => editor_insert_byte_at_offset e a.offset.toNat a.c false
        | .replace =>
          let e := { e with contents := e.contents.set a.offset.toNat a.c }
          { e with undo_list := { e.undo_list with
              acts := e.undo_list.acts.set (e.undo_list.pos - 1)
                        { a with c := old_contents } } }
        | .insert => editor_delete_char_at_offset e a.offset.toNat
      let e := editor_scroll_to_offset e (u32 a.offset).toNat
      let e := { e with undo_list := action_list_move e.undo_list (-1) }
      editor_statusmessage e .info "Reverted"

/-- editor.c `editor_redo` (lines 1234-1286).  `next_action` is the head
when the cursor is before the head, otherwise `curr->next`; `idx` is the
0-based position of that node in the sequence (used by the REPLACE branch,
which mutates the node in place).  The trailing status message is
abbreviated. -/
def editor_redo (e : editor) : editor :=
  if e.undo_list.status = .after_tail ∨ e.undo_list.status = .nothing then
    editor_statusmessage e .info "No action to redo"
  else
    let idx : Nat := if e.undo_list.status = .before_head then 0 else e.undo_list.pos
    let next_action : Option action := e.undo_list.acts[idx]?
    match next_action with
    | none => editor_statusmessage e .info "No action to redo"
    | some a =>
      let old_contents : Nat := e.contents.getD a.offset.toNat 0
      let e :=
        match a.act with
        | .append => editor_insert_byte_at_offset e a.offset.toNat a.c true
        | .delete => editor_delete_char_at_offset e a.offset.toNat
        | .replace =>
          let e := { e with contents := e.contents.set a.offset.toNat a.c }
          { e with undo_list := { e.undo_list with
              acts := e.undo_list.acts.set idx { a with c := old_contents } } }
        | .insert => editor_insert_byte_at_offset e a.offset.toNat a.c false
      let e := editor_scroll_to_offset e (u32 a.offset).toNat
      let e := { e with undo_list := action_list_move e.undo_list 1 }
      editor_statusmessage e .info "Redone"

/-- editor.c `parse_search_string` (lines 833-889) on the characters of the
input before its terminating NUL.  Parsed bytes are returned instead of being
written into the caller's buffer (on error the buffer is documented as
undefined), and the four error returns become `Except.error`.  Real input
strings never contain an embedded NUL character. -/
def parse_search_string : List Char → Except parse_errors (List Nat)
| [] => .ok []
| '\\' :: rest =>
  match rest with
  | [] => .error .incomplete_backslash
  | '\\' :: rest2 => (parse_search_string rest2).map (fun l => 0x5c :: l)
  | 'x' :: rest2 =>
    match rest2 with
    | [] => .error .incomplete_hex
    | [_] => .error .incomplete_hex
    | c0 :: c1 :: rest3 =>
      if isxdigit c0 && isxdigit c1 then
        (parse_search_string rest3).map (fun l => hex2bin c0 c1 :: l)
      else .error .invalid_hex
  | _ :: _ => .error .invalid_escape
| c :: rest => (parse_search_string rest).map (fun l => c.toNat :: l)

/-- The comparison `memcmp(e->contents + off, parsedstr, strlen(parsedstr))
== 0` for a pattern of `pat.length` bytes.  A comparison that would run past
the end of the buffer reads unowned memory in C; it is modeled as a failed
comparison (the truncated slice has the wrong length). -/
def match_at (contents pat : List Nat) (off : Nat) : Bool :=
  (contents.drop off).take pat.length == pat

/-- The forward scan loop of editor.c `editor_process_search` (lines
939-946): first offset in `[off, contents.length)` where the pattern
matches. -/
def find_fwd (contents pat : List Nat) (off : Nat) : Option Nat :=
  if off < contents.length then
    if match_at contents pat off then some off else find_fwd contents pat (off + 1)
  else none
termination_by contents.length - off

/-- The backward scan loop of editor.c `editor_process_search` (lines
961-968): `for (; current_offset-- != 0; )` entered with `current_offset =
co` tests `co != 0`, decrements, and compares at the decremented offset, so
it compares offsets `co - 1, co - 2, ..., 0`. -/
def find_bwd (contents pat : List Nat) : Nat → Option Nat
| 0 => none
| k + 1 => if match_at contents pat k then some k else find_bwd contents pat k

/-- editor.c `editor_process_search` (lines 891-972).  The `strncmp`-guarded
update of `e->searchstr` keeps the new query; the matching length is
`strlen(parsedstr)`, i.e. the parsed bytes up to the first NUL byte
(`takeWhile (· ≠ 0)`).  `current_offset` is an `unsigned int` assigned from
the signed `editor_offset_at_cursor`. -/
def editor_process_search (e : editor) (str : String) (dir : search_direction) :
    editor :=
  if str = "" then { e with searchstr := "" }
  else
    let e := if str ≠ e.searchstr then { e with searchstr := str } else e
    match parse_search_string str.data with
    | .error .incomplete_backslash =>
      editor_statusmessage e .error ("Nothing follows '\\' in search string: " ++ str)
    | .error .incomplete_hex =>
      editor_statusmessage e .error ("Incomplete hex value at end of search string: " ++ str)
    | .error .invalid_hex =>
      editor_statusmessage e .error ("Invalid hex value in search string: " ++ str)
    | .error .invalid_escape =>
      editor_statusmessage e .error ("Invalid character after \\ in search string: " ++ str)
    | .ok parsed =>
      let pat := parsed.takeWhile (fun b => b ≠ 0)
      let current_offset : Nat := (u32 (editor_offset_at_cursor e)).toNat
      match dir with
      | .forward =>
        match find_fwd e.contents pat (current_offset + 1) with
        | some f => editor_scroll_to_offset (editor_statusmessage e .info "") f
        | none => editor_statusmessage e .warning ("String not found: '" ++ str ++ "'")
      | .backward =>
        if current_offset = 0 then
          editor_statusmessage e .info "Already at start of the file"
        else
          match find_bwd e.contents pat (current_offset - 1) with
          | some f => editor_scroll_to_offset (editor_statusmessage e .info "") f
          | none => editor_statusmessage e .warning ("String not found: '" ++ str ++ "'")

/-- The `sscanf(cmd, "set %[a-z]=%d", setcmd, &setval)` call of editor.c
`editor_process_command` (line 770): matches the literal `set`, skips
whitespace, reads a nonempty run of lowercase letters, the literal `=`, and
a decimal number (optional sign, then at least one digit; `%d` skips
whitespace first).  Returns the two converted items, or `none` when fewer
than two items convert. -/
def parse_set_command (s : List Char) : Option (List Char × Int) :=
  match s with
  | 's' :: 'e' :: 't' :: rest =>
    let rest := rest.dropWhile (fun c => c = ' ')
    let name := rest.takeWhile (fun c => 'a' ≤ c && c ≤ 'z')
    let rest := rest.dropWhile (fun c => 'a' ≤ c && c ≤ 'z')
    if name = [] then none
    else
      match rest with
      | '=' :: rest2 =>
        let rest2 := rest2.dropWhile (fun c => c = ' ')
        match rest2 with
        | '-' :: ds =>
          if ds.takeWhile isdigit = [] then none
          else some (name, -(dec_prefix_value (ds.takeWhile isdigit) 0 : Int))
        | '+' :: ds =>
          if ds.takeWhile isdigit = [] then none
          else some (name, (dec_prefix_value (ds.takeWhile isdigit) 0 : Int))
        | ds =>
          if ds.takeWhile isdigit = [] then none
          else some (name, (dec_prefix_value (ds.takeWhile isdigit) 0 : Int))
      | _ => none
  | _ => none

/-- editor.c `editor_process_command` (lines 717-807).  Process-terminating
branches (`q` when clean, `q!`) and the purely external effects
(`editor_writefile`'s file output, `editor_render_help`, `clear_screen`)
leave the modeled state unchanged apart from the documented field updates;
`editor_writefile` (lines 183-202) is modeled on its success path, which
sets `dirty := false`.  Status message texts are abbreviated where they
carry formatted arguments. -/
def editor_process_command (e : editor) (cmd : String) : editor :=
  if is_pos_num cmd.data then
    let offset := str2int cmd.data 0 (content_length e) (content_length e - 1)
    let e := editor_scroll_to_offset e (u32 offset).toNat
    editor_statusmessage e .info "Positioned to offset"
  else if cmd.data.take 2 = ['0', 'x'] then
    let ptr := cmd.data.drop 2
    if ¬ is_hex ptr then editor_statusmessage e .error "Error: not valid base 16"
    else
      let offset := hex2int ptr
      let e := editor_scroll_to_offset e (u32 offset).toNat
      editor_statusmessage e .info "Positioned to offset"
  else if cmd = "w" then
    { editor_statusmessage e .info "bytes written" with dirty := false }
  else if cmd = "q" then
    if e.dirty then
      editor_statusmessage e .error "No write since last change (add ! to override)"
    else e
  else if cmd = "q!" then e
  else if cmd = "help" then e
  else if cmd.data.take 3 = ['s', 'e', 't'] then
    match parse_set_command cmd.data with
    | none => editor_statusmessage e .error "set command format: `set cmd=num`"
    | some (setcmd, setval) =>
      if setcmd = "octets".data ∨ setcmd = "o".data then
        let octets := clampi setval 16 64
        let offset := editor_offset_at_cursor e
        let e := { e with octets_per_line := octets }
        let e := editor_scroll_to_offset e (u32 offset).toNat
        editor_statusmessage e .info "Octets per line set"
      else if setcmd = "grouping".data ∨ setcmd = "g".data then
        let grouping := clampi setval 4 16
        let e := { e with grouping := grouping }
        editor_statusmessage e .info "Byte grouping set"
      else
        editor_statusmessage e .error "Unknown option"
  else
    editor_statusmessage e .error "Command not found"

/-- editor.c `editor_init` (lines 1291-1318) with the buffer already loaded
(`editor_openfile` / `editor_newfile` store the file bytes into `contents`).
The screen size comes from the terminal via `get_window_size`, so it is a
parameter here.  `dirty` starts out false: the freshly loaded buffer is
unmodified. -/
def init_editor (contents : List Nat) (rows cols : Int) : editor :=
  { octets_per_line := 16, grouping := 2, line := 0, cursor_x := 1, cursor_y := 1,
    screen_rows := rows, screen_cols := cols, dirty := false, contents := contents,
    status_severity := .info, status_message := "", searchstr := "",
    undo_list := action_list_init }

/-- A byte-level edit with the cursor-derived offset made explicit (editor.c
derives `offset` from `editor_offset_at_cursor`; the round-trip claims
quantify over the offsets).  `ins x`/`app x` are `editor_insert_byte` (lines
672-681) with `after` false/true, `del` is `editor_delete_char_at_cursor`
(lines 211-230), `rep x` is `editor_replace_byte` (lines 706-715). -/
inductive edit
| ins (off : Nat) (x : Nat)
| app (off : Nat) (x : Nat)
| del (off : Nat)
| rep (off : Nat) (x : Nat)
deriving DecidableEq, Repr

/-- Application of one `edit` to the editor state, following the cited
editor.c function bodies line by line with `off` in place of the
`editor_offset_at_cursor` result. -/
def apply_edit (e : editor) : edit → editor
| .ins off x =>
  let e := editor_insert_byte_at_offset e off x false
  { e with undo_list := action_list_add e.undo_list .insert (off : Int) x }
| .app off x =>
  let e := editor_insert_byte_at_offset e off x true
  { e with undo_list := action_list_add e.undo_list .append (off : Int) x }
| .del off =>
  let old_length := e.contents.length
  if content_length e ≤ 0 then editor_statusmessage e .warning "Nothing to delete"
  else
    let charat := e.contents.getD off 0
    let e := editor_delete_char_at_offset e off
    let e := { e with dirty := true }
    let e := if off ≥ old_length - 1 then editor_move_cursor e .left 1 else e
    { e with undo_list := action_list_add e.undo_list .delete (off : Int) charat }
| .rep off x =>
  let prev := e.contents.getD off 0
  let e := { e with contents := e.contents.set off x }
  let e := editor_move_cursor e .right 1
  let e := editor_statusmessage e .info "Replaced byte"
  let e := { e with dirty := true }
  { e with undo_list := action_list_add e.undo_list .replace (off : Int) prev }

/-- Apply a sequence of edits left to right. -/
def run_edits (e : editor) : List edit → editor
| [] => e
| ed :: rest => run_edits (apply_edit e ed) rest

/-- Iterated `editor_undo`. -/
def undoN (e : editor) : Nat → editor
| 0 => e
| n + 1 => undoN (editor_undo e) n

/-- Iterated `editor_redo`. -/
def redoN (e : editor) : Nat → editor
| 0 => e
| n + 1 => redoN (editor_redo e) n

/-- An operation on the undo machinery: recording an action
(`action_list_add`, as performed by every edit), `editor_undo`, or
`editor_redo` (for claim C9). -/
inductive history_op
| record (ty : action_type) (offset : Int) (c : Nat)
| undo
| redo
deriving DecidableEq, Repr

/-- Run one `history_op` on the editor state. -/
def do_history_op (e : editor) : history_op → editor
| .record ty off c => { e with undo_list := action_list_add e.undo_list ty off c }
| .undo => editor_undo e
| .redo => editor_redo e

/-- Run a sequence of `history_op`s left to right. -/
def run_history_ops (e : editor) : List history_op → editor
| [] => e
| o :: rest => run_history_ops (do_history_op e o) rest

/-! ### Buffer/undo-list projections of the editor operations

`editor_undo`, `editor_redo` and `apply_edit` change the byte buffer and the
undo list; their cursor, scroll and status-line effects never feed back into
those two components.  The `*_step` functions below are the projections of
the operations onto the `(contents, undo_list)` pair, and the bridging
lemmas prove that they agree with the full-state definitions. -/

/-- Projection of `apply_edit` onto `(contents, undo_list)`. -/
def edit_step (contents : List Nat) (ul : action_list) : edit → List Nat × action_list
| .ins off x => (buf_insert contents off x, action_list_add ul .insert (off : Int) x)
| .app off x =>
  (buf_insert contents (if contents.length ≠ 0 then off + 1 else off) x,
   action_list_add ul .append (off : Int) x)
| .del off =>
  if (contents.length : Int) ≤ 0 then (contents, ul)
  else (buf_delete contents off,
        action_list_add ul .delete (off : Int) (contents.getD off 0))
| .rep off x =>
  (contents.set off x, action_list_add ul .replace (off : Int) (contents.getD off 0))

/-- Projection of `editor_undo` onto `(contents, undo_list)`. -/
def undo_step (contents : List Nat) (ul : action_list) : List Nat × action_list :=
  let last_action : Option action :=
    match ul.status with
    | .node => ul.acts[ul.pos - 1]?
    | _ => none
  let ul := if ul.status = .after_tail then action_list_move ul (-1) else ul
  if ul.status ≠ .node then (contents, ul)
  else
    match last_action with
    | none => (contents, ul)
    | some a =>
      let old_contents : Nat := contents.getD a.offset.toNat 0
      let step : List Nat × action_list :=
        match a.act with
        | .append => (buf_delete contents (a.offset.toNat + 1), ul)
        | .delete => (buf_insert contents a.offset.toNat a.c, ul)
        | .replace =>
          (contents.set a.offset.toNat a.c,
           { ul with acts := ul.acts.set (ul.pos - 1) { a with c := old_contents } })
        | .insert => (buf_delete contents a.offset.toNat, ul)
      (step.1, action_list_move step.2 (-1))

/-- Projection of `editor_redo` onto `(contents, undo_list)`. -/
def redo_step (contents : List Nat) (ul : action_list) : List Nat × action_list :=
  if ul.status = .after_tail ∨ ul.status = .nothing then (contents, ul)
  else
    let idx : Nat := if ul.status = .before_head then 0 else ul.pos
    match ul.acts[idx]? with
    | none => (contents, ul)
    | some a =>
      let old_contents : Nat := contents.getD a.offset.toNat 0
      let step : List Nat × action_list :=
        match a.act with
        | .append =>
          (buf_insert contents
            (if contents.length ≠ 0 then a.offset.toNat + 1 else a.offset.toNat) a.c, ul)
        | .delete => (buf_delete contents a.offset.toNat, ul)
        | .replace =>
          (contents.set a.offset.toNat a.c,
           { ul with acts := ul.acts.set idx { a with c := old_contents } })
        | .insert => (buf_insert contents a.offset.toNat a.c, ul)
      (step.1, action_list_move step.2 1)

/-! ### The undo/redo round trip (claim C1)

`rec_of B ed` is the action record created when the edit `ed` is applied to
buffer `B`; `rec_undone B ed` is the same record after the edit has been
undone (editor.c's undo of a REPLACE swaps the stored byte with the buffer
byte, all other records are untouched).  `edit_valid` is the spec contract
of the ByteBuffer operations (insert within `[0, length]`, append/delete/
replace within `[0, length)`).  An append recorded while the buffer is
empty is deliberately NOT valid: the editor does reach it (press `a` on an
empty file), but undoing such a record calls
`editor_delete_char_at_offset(e, 1)` on the resulting 1-byte buffer
(editor.c line 1206), whose `memmove` size underflows in `unsigned`
arithmetic to `2 ^ 32 - 1` (editor.c line 238) — undefined behaviour, not a
restoration; see `C1_append_empty_undo_underflow`. -/

/-- Buffer contents after one edit (the first component of `edit_step`). -/
def buf_after (B : List Nat) : edit → List Nat
| .ins off x => buf_insert B off x
| .app off x => buf_insert B (if B.length ≠ 0 then off + 1 else off) x
| .del off => if (B.length : Int) ≤ 0 then B else buf_delete B off
| .rep off x => B.set off x

/-- The action record `action_list_add` receives for one edit. -/
def rec_of (B : List Nat) : edit → action
| .ins off x => ⟨.insert, (off : Int), x⟩
| .app off x => ⟨.append, (off : Int), x⟩
| .del off => ⟨.delete, (off : Int), B.getD off 0⟩
| .rep off _ => ⟨.replace, (off : Int), B.getD off 0⟩

/-- The action record after `editor_undo` has processed it: undoing a
REPLACE stores the replaced-in byte back into the record. -/
def rec_undone (B : List Nat) : edit → action
| .rep off x => ⟨.replace, (off : Int), x⟩
| ed => rec_of B ed

/-- Validity of one edit against the current buffer: the offset contract of
the ByteBuffer operations (§4.1 of the spec).  The append case requires a
nonempty buffer (`off < B.length`): undoing an append recorded on an empty
buffer is the unsigned-underflow UB of editor.c line 238 (see
`C1_append_empty_undo_underflow`), so the round-trip claim cannot cover
it. -/
def edit_valid (B : List Nat) : edit → Prop
| .ins off _ => off ≤ B.length
| .app off _ => off < B.length
| .del off => off < B.length
| .rep off _ => off < B.length

instance edit_valid_decidable (B : List Nat) (ed : edit) : Decidable (edit_valid B ed) := by
  cases ed <;> dsimp only [edit_valid] <;> infer_instance

/-- Validity of a sequence of edits, each against the buffer it is applied
to. -/
def edits_valid (B : List Nat) : List edit → Prop
| [] => True
| ed :: rest => edit_valid B ed ∧ edits_valid (buf_after B ed) rest

instance edits_valid_decidable : (B : List Nat) → (eds : List edit) →
    Decidable (edits_valid B eds)
| _, [] => .isTrue trivial
| B, ed :: rest => by
  have : Decidable (edits_valid (buf_after B ed) rest) := edits_valid_decidable _ rest
  dsimp only [edits_valid]
  infer_instance

/-- The action records produced by a sequence of edits. -/
def recs (B : List Nat) : List edit → List action
| [] => []
| ed :: rest => rec_of B ed :: recs (buf_after B ed) rest

/-- The same records after the whole sequence has been undone. -/
def recs_undone (B : List Nat) : List edit → List action
| [] => []
| ed :: rest => rec_undone B ed :: recs_undone (buf_after B ed) rest

/-- Buffer contents after a sequence of edits. -/
def buf_final (B : List Nat) : List edit → List Nat
| [] => B
| ed :: rest => buf_final (buf_after B ed) rest

/-- Iterated `edit_step` over the `(contents, undo_list)` pair. -/
def edit_stepN (p : List Nat × action_list) : List edit → List Nat × action_list
| [] => p
| ed :: rest => edit_stepN (edit_step p.1 p.2 ed) rest

/-- Iterated `undo_step` over the `(contents, undo_list)` pair. -/
def undo_stepN (p : List Nat × action_list) : Nat → List Nat × action_list
| 0 => p
| n + 1 => undo_stepN (undo_step p.1 p.2) n

/-- Iterated `redo_step` over the `(contents, undo_list)` pair. -/
def redo_stepN (p : List Nat × action_list) : Nat → List Nat × action_list
| 0 => p
| n + 1 => redo_stepN (redo_step p.1 p.2) n

def ul_ok (ul : action_list) : Prop :=
  (ul.status = .nothing → ul.acts = []) ∧
  (ul.status = .before_head → ul.acts ≠ []) ∧
  (ul.status = .node → 1 ≤ ul.pos ∧ ul.pos ≤ ul.acts.length) ∧
  ul.status ≠ .after_tail

/-- Editor state used by the search claims: the 5-byte buffer
41 42 43 41 42 with the cursor on offset 4 (cursor (5,1), no scroll) and the
default viewport of `editor_init` on a 24x80 terminal. -/
def search_demo_editor : editor :=
  { octets_per_line := 16, grouping := 2, line := 0, cursor_x := 5, cursor_y := 1,
    screen_rows := 24, screen_cols := 80, dirty := false,
    contents := [0x41, 0x42, 0x43, 0x41, 0x42],
    status_severity := .info, status_message := "", searchstr := "",
    undo_list := action_list_init }

/-! ### Shape and preservation lemmas

`editor_scroll`, `editor_scroll_to_offset`, `editor_move_cursor` and
`editor_statusmessage` only move the cursor, scroll, or set the status line;
they never touch the byte buffer or the undo list.  These lemmas record that
once and for all. -/

theorem editor_scroll_shape (e : editor) (u : Int) :
    ∃ L, editor_scroll e u = { e with line := L } := by
  unfold editor_scroll
  dsimp only
  repeat' split
  all_goals exact ⟨_, rfl⟩

theorem editor_scroll_to_offset_shape (e : editor) (off : Nat) :
    ∃ x y L sv sm, editor_scroll_to_offset e off =
      { e with cursor_x := x, cursor_y := y, line := L,
               status_severity := sv, status_message := sm } := by
  unfold editor_scroll_to_offset editor_statusmessage
  dsimp only
  repeat' split
  all_goals exact ⟨_, _, _, _, _, rfl⟩

@[simp] theorem editor_scroll_contents (e : editor) (u : Int) :
    (editor_scroll e u).contents = e.contents := by
  obtain ⟨L, h⟩ := editor_scroll_shape e u
  rw [h]

@[simp] theorem editor_scroll_undo_list (e : editor) (u : Int) :
    (editor_scroll e u).undo_list = e.undo_list := by
  obtain ⟨L, h⟩ := editor_scroll_shape e u
  rw [h]

@[simp] theorem editor_statusmessage_contents (e : editor) (sev : status_severity)
    (m : String) : (editor_statusmessage e sev m).contents = e.contents := rfl

@[simp] theorem editor_statusmessage_undo_list (e : editor) (sev : status_severity)
    (m : String) : (editor_statusmessage e sev m).undo_list = e.undo_list := rfl

@[simp] theorem editor_scroll_to_offset_contents (e : editor) (off : Nat) :
    (editor_scroll_to_offset e off).contents = e.contents := by
  obtain ⟨x, y, L, sv, sm, h⟩ := editor_scroll_to_offset_shape e off
  rw [h]

@[simp] theorem editor_scroll_to_offset_undo_list (e : editor) (off : Nat) :
    (editor_scroll_to_offset e off).undo_list = e.undo_list := by
  obtain ⟨x, y, L, sv, sm, h⟩ := editor_scroll_to_offset_shape e off
  rw [h]

@[simp] theorem editor_move_cursor_contents (e : editor) (d : arrow_key) (a : Int) :
    (editor_move_cursor e d a).contents = e.contents := by
  unfold editor_move_cursor
  cases d <;> dsimp only <;> simp [apply_ite editor.contents]

@[simp] theorem editor_move_cursor_undo_list (e : editor) (d : arrow_key) (a : Int) :
    (editor_move_cursor e d a).undo_list = e.undo_list := by
  unfold editor_move_cursor
  cases d <;> dsimp only <;> simp [apply_ite editor.undo_list]

theorem apply_edit_pair (e : editor) (ed : edit) :
    ((apply_edit e ed).contents, (apply_edit e ed).undo_list) =
      edit_step e.contents e.undo_list ed := by
  cases ed with
  | ins off x =>
    simp [apply_edit, edit_step, editor_insert_byte_at_offset]
  | app off x =>
    by_cases h : e.contents.length ≠ 0 <;>
      simp [apply_edit, edit_step, editor_insert_byte_at_offset, h]
  | del off =>
    by_cases h : (e.contents.length : Int) ≤ 0
    · simp [apply_edit, edit_step, content_length, editor_statusmessage, h]
    · by_cases h2 : off ≥ e.contents.length - 1 <;>
        simp [apply_edit, edit_step, content_length, editor_delete_char_at_offset, h, h2]
  | rep off x =>
    simp [apply_edit, edit_step]

theorem editor_undo_pair (e : editor) :
    ((editor_undo e).contents, (editor_undo e).undo_list) =
      undo_step e.contents e.undo_list := by
  obtain ⟨opl, grp, ln, cx, cy, sr, sc, dt, cont, sv, sm, ss, acts, pos, st⟩ := e
  cases st with
  | before_head => rfl
  | nothing => rfl
  | after_tail =>
    dsimp only [editor_undo, undo_step]
    simp [apply_ite editor.contents, apply_ite editor.undo_list, editor_statusmessage]
  | node =>
    dsimp only [editor_undo, undo_step]
    cases hA : acts[pos - 1]? with
    | none => simp [hA, editor_statusmessage]
    | some a =>
      obtain ⟨act, aoff, ac⟩ := a
      cases act <;>
        simp [hA, editor_insert_byte_at_offset, editor_delete_char_at_offset,
          editor_statusmessage]

theorem editor_redo_pair (e : editor) :
    ((editor_redo e).contents, (editor_redo e).undo_list) =
      redo_step e.contents e.undo_list := by
  obtain ⟨opl, grp, ln, cx, cy, sr, sc, dt, cont, sv, sm, ss, acts, pos, st⟩ := e
  cases st with
  | after_tail => rfl
  | nothing => rfl
  | before_head =>
    dsimp only [editor_redo, redo_step]
    cases hA : acts[(0 : Nat)]? with
    | none => simp [hA, editor_statusmessage]
    | some a =>
      obtain ⟨act, aoff, ac⟩ := a
      cases act <;>
        simp [hA, editor_insert_byte_at_offset, editor_delete_char_at_offset,
          editor_statusmessage]
  | node =>
    dsimp only [editor_redo, redo_step]
    cases hA : acts[pos]? with
    | none => simp [hA, editor_statusmessage]
    | some a =>
      obtain ⟨act, aoff, ac⟩ := a
      cases act <;>
        simp [hA, editor_insert_byte_at_offset, editor_delete_char_at_offset,
          editor_statusmessage]

/-! ### List-level facts about the buffer operations -/

theorem list_take_set_self {α : Type} (l : List α) (i : Nat) (v : α) :
    (l.set i v).take i = l.take i := by
  induction l generalizing i with
  | nil => rfl
  | cons a l ih =>
    cases i with
    | zero => rfl
    | succ i => simp [List.set, ih]

theorem list_set_getD_self (l : List Nat) (i : Nat) (h : i < l.length) :
    l.set i (l.getD i 0) = l := by
  apply List.ext_getElem
  · simp
  · intro n h1 h2
    rw [List.getElem_set]
    split
    · subst ‹_›
      rw [List.getD_eq_getElem l 0 h]
    · rfl

theorem list_getD_set_self (l : List Nat) (i : Nat) (x : Nat) (h : i < l.length) :
    (l.set i x).getD i 0 = x := by
  rw [List.getD_eq_getElem _ 0 (by simpa using h), List.getElem_set_self]

theorem list_set_append_length {α : Type} (A : List α) (r r' : α) (R : List α) :
    (A ++ r :: R).set A.length r' = A ++ r' :: R := by
  induction A with
  | nil => rfl
  | cons a A ih => simp [List.set, ih]

theorem list_getElem_append_length {α : Type} (A : List α) (r : α) (R : List α) :
    (A ++ r :: R)[A.length]? = some r := by
  rw [List.getElem?_append_right (le_refl _)]
  simp

theorem buf_insert_length (B : List Nat) (off x : Nat) (h : off ≤ B.length) :
    (buf_insert B off x).length = B.length + 1 := by
  simp [buf_insert]
  omega

theorem buf_delete_buf_insert (B : List Nat) (off x : Nat) (h : off ≤ B.length) :
    buf_delete (buf_insert B off x) off = B := by
  have htk : (B.take off).length = off := by simp; omega
  have h1 : (buf_insert B off x).take off = B.take off := by
    rw [buf_insert, List.append_assoc, List.take_left' htk]
  have h2 : (buf_insert B off x).drop (off + 1) = B.drop off := by
    rw [buf_insert, List.drop_left' (by simp [htk])]
  rw [buf_delete, h1, h2, List.take_append_drop, buf_insert_length B off x h]
  simp

theorem buf_delete_eq (B : List Nat) (off : Nat) (h : off < B.length) :
    buf_delete B off = B.take off ++ B.drop (off + 1) := by
  rw [buf_delete]
  apply List.take_of_length_le
  simp
  omega

theorem buf_insert_buf_delete (B : List Nat) (off : Nat) (h : off < B.length) :
    buf_insert (buf_delete B off) off (B.getD off 0) = B := by
  have htk : (B.take off).length = off := by simp; omega
  rw [buf_delete_eq B off h, buf_insert, List.take_left' htk, List.drop_left' htk,
    List.getD_eq_getElem B 0 h, List.append_assoc, List.singleton_append,
    List.getElem_cons_drop B off h]
  exact List.take_append_drop off B

theorem undo_stepN_succ (p : List Nat × action_list) (n : Nat) :
    undo_stepN p (n + 1) = undo_step (undo_stepN p n).1 (undo_stepN p n).2 := by
  induction n generalizing p with
  | zero => rfl
  | succ n ih => rw [undo_stepN, ih, undo_stepN]

theorem run_edits_pair (eds : List edit) : ∀ e : editor,
    ((run_edits e eds).contents, (run_edits e eds).undo_list) =
      edit_stepN (e.contents, e.undo_list) eds := by
  induction eds with
  | nil => intro e; rfl
  | cons ed rest ih =>
    intro e
    rw [run_edits, edit_stepN, ih (apply_edit e ed)]
    rw [show edit_step (e.contents, e.undo_list).1 (e.contents, e.undo_list).2 ed =
          edit_step e.contents e.undo_list ed from rfl, ← apply_edit_pair]

theorem undoN_pair (n : Nat) : ∀ e : editor,
    ((undoN e n).contents, (undoN e n).undo_list) =
      undo_stepN (e.contents, e.undo_list) n := by
  induction n with
  | zero => intro e; rfl
  | succ n ih =>
    intro e
    rw [undoN, undo_stepN, ih (editor_undo e)]
    rw [show undo_step (e.contents, e.undo_list).1 (e.contents, e.undo_list).2 =
          undo_step e.contents e.undo_list from rfl, ← editor_undo_pair]

theorem redoN_pair (n : Nat) : ∀ e : editor,
    ((redoN e n).contents, (redoN e n).undo_list) =
      redo_stepN (e.contents, e.undo_list) n := by
  induction n with
  | zero => intro e; rfl
  | succ n ih =>
    intro e
    rw [redoN, redo_stepN, ih (editor_redo e)]
    rw [show redo_step (e.contents, e.undo_list).1 (e.contents, e.undo_list).2 =
          redo_step e.contents e.undo_list from rfl, ← editor_redo_pair]

theorem action_list_add_at_tail (ul : action_list) (ty : action_type) (off : Int) (c : Nat)
    (hpos : ul.pos = ul.acts.length)
    (hst : ul.status = .node ∨ (ul.acts = [] ∧ ul.status = .nothing)) :
    action_list_add ul ty off c =
      ⟨ul.acts ++ [⟨ty, off, c⟩], ul.acts.length + 1, .node⟩ := by
  obtain ⟨acts, pos, st⟩ := ul
  dsimp at hpos ⊢
  subst hpos
  rcases hst with h | ⟨h1, h2⟩
  · dsimp at h; subst h
    simp [action_list_add]
  · dsimp at h1 h2; subst h1; subst h2
    simp [action_list_add]

theorem edit_step_at_tail (B : List Nat) (ul : action_list) (ed : edit)
    (hv : edit_valid B ed)
    (hpos : ul.pos = ul.acts.length)
    (hst : ul.status = .node ∨ (ul.acts = [] ∧ ul.status = .nothing)) :
    edit_step B ul ed =
      (buf_after B ed, ⟨ul.acts ++ [rec_of B ed], ul.acts.length + 1, .node⟩) := by
  cases ed with
  | ins off x =>
    rw [edit_step, action_list_add_at_tail ul _ _ _ hpos hst]; rfl
  | app off x =>
    rw [edit_step, action_list_add_at_tail ul _ _ _ hpos hst]; rfl
  | del off =>
    have hlen : ¬((B.length : Int) ≤ 0) := by
      have : off < B.length := hv
      omega
    rw [edit_step, if_neg hlen, action_list_add_at_tail ul _ _ _ hpos hst]
    rw [buf_after, if_neg hlen]
    rfl
  | rep off x =>
    rw [edit_step, action_list_add_at_tail ul _ _ _ hpos hst]; rfl

theorem edit_stepN_from_tail : ∀ (eds : List edit) (B : List Nat) (ul : action_list),
    edits_valid B eds →
    ul.pos = ul.acts.length →
    (ul.status = .node ∨ (ul.acts = [] ∧ ul.status = .nothing)) →
    edit_stepN (B, ul) eds =
      (buf_final B eds,
       ⟨ul.acts ++ recs B eds, ul.acts.length + eds.length,
        if eds = [] then ul.status else .node⟩) := by
  intro eds
  induction eds with
  | nil =>
    intro B ul _ hpos _
    obtain ⟨acts, pos, st⟩ := ul
    dsimp at hpos
    subst hpos
    simp [edit_stepN, buf_final, recs]
  | cons ed rest ih =>
    intro B ul hval hpos hst
    rw [edit_stepN]
    rw [show edit_step (B, ul).1 (B, ul).2 ed = edit_step B ul ed from rfl]
    rw [edit_step_at_tail B ul ed hval.1 hpos hst]
    rw [ih (buf_after B ed) ⟨ul.acts ++ [rec_of B ed], ul.acts.length + 1, .node⟩
        hval.2 (by simp) (Or.inl rfl)]
    simp only [buf_final, recs, List.append_assoc, List.singleton_append, ite_self,
      List.length_cons, Prod.mk.injEq, action_list.mk.injEq, List.cons_ne_nil, if_false,
      reduceCtorEq]
    refine ⟨trivial, trivial, ?_, trivial⟩
    simp
    omega

theorem action_list_move_back_node (acts : List action) (pos : Nat) (hne : acts ≠ []) :
    action_list_move ⟨acts, pos, .node⟩ (-1) =
      if pos = 1 then ⟨acts, 0, .before_head⟩ else ⟨acts, pos - 1, .node⟩ := by
  have hsz : action_list_size ⟨acts, pos, .node⟩ ≠ 0 := by
    simpa [action_list_size] using hne
  rw [action_list_move, if_neg (by norm_num), if_neg hsz, if_neg (by norm_num)]

theorem undo_step_inverse (B : List Nat) (ed : edit) (hv : edit_valid B ed)
    (A R : List action) :
    undo_step (buf_after B ed) ⟨A ++ rec_of B ed :: R, A.length + 1, .node⟩ =
      (B, action_list_move ⟨A ++ rec_undone B ed :: R, A.length + 1, .node⟩ (-1)) := by
  cases ed with
  | ins off x =>
    simp only [undo_step, buf_after, rec_of, rec_undone, Nat.add_sub_cancel,
      list_getElem_append_length, Int.toNat_natCast, reduceCtorEq, reduceIte, ne_eq,
      not_true_eq_false, Bool.false_eq_true, if_false]
    rw [buf_delete_buf_insert B off x hv]
  | app off x =>
    simp only [undo_step, buf_after, rec_of, rec_undone, Nat.add_sub_cancel,
      list_getElem_append_length, Int.toNat_natCast, reduceCtorEq, reduceIte, ne_eq,
      not_true_eq_false, Bool.false_eq_true, if_false]
    have hlt : off < B.length := hv
    rw [if_pos (by omega)]
    rw [buf_delete_buf_insert B (off + 1) x (by omega)]
  | del off =>
    have hlen : ¬((B.length : Int) ≤ 0) := by
      have : off < B.length := hv
      omega
    simp only [undo_step, buf_after, rec_of, rec_undone, Nat.add_sub_cancel,
      list_getElem_append_length, Int.toNat_natCast, reduceCtorEq, reduceIte, ne_eq,
      not_true_eq_false, Bool.false_eq_true, if_false, if_neg hlen]
    rw [show (buf_insert (buf_delete B off) off (B.getD off 0)) = B from
      buf_insert_buf_delete B off hv]
  | rep off x =>
    simp only [undo_step, buf_after, rec_of, rec_undone, Nat.add_sub_cancel,
      list_getElem_append_length, Int.toNat_natCast, reduceCtorEq, reduceIte, ne_eq,
      not_true_eq_false, Bool.false_eq_true, if_false]
    rw [list_getD_set_self B off x hv]
    rw [List.set_set, list_set_getD_self B off hv]
    rw [list_set_append_length]

theorem undo_phase : ∀ (eds : List edit) (A : List action) (B : List Nat),
    edits_valid B eds →
    undo_stepN (buf_final B eds, ⟨A ++ recs B eds, A.length + eds.length, .node⟩)
        eds.length
      = (B, ⟨A ++ recs_undone B eds, A.length,
             if A = [] ∧ eds ≠ [] then .before_head else .node⟩) := by
  intro eds
  induction eds with
  | nil =>
    intro A B _
    simp [undo_stepN, buf_final, recs, recs_undone]
  | cons ed rest ih =>
    intro A B hval
    rw [List.length_cons, undo_stepN_succ]
    have hmid : (buf_final B (ed :: rest),
        (⟨A ++ recs B (ed :: rest), A.length + (rest.length + 1), .node⟩ : action_list))
        = (buf_final (buf_after B ed) rest,
           ⟨(A ++ [rec_of B ed]) ++ recs (buf_after B ed) rest,
            (A ++ [rec_of B ed]).length + rest.length, .node⟩) := by
      simp [buf_final, recs, Prod.mk.injEq, action_list.mk.injEq]
      omega
    rw [hmid, ih (A ++ [rec_of B ed]) (buf_after B ed) hval.2]
    dsimp only
    rw [if_neg (by simp : ¬(A ++ [rec_of B ed] = [] ∧ rest ≠ []))]
    rw [show A ++ [rec_of B ed] ++ recs_undone (buf_after B ed) rest
          = A ++ rec_of B ed :: recs_undone (buf_after B ed) rest by simp]
    rw [show (A ++ [rec_of B ed]).length = A.length + 1 by simp]
    rw [undo_step_inverse B ed hval.1 A (recs_undone (buf_after B ed) rest)]
    rw [action_list_move_back_node _ _ (by simp)]
    by_cases hA : A = []
    · subst hA
      simp [recs_undone]
    · rw [if_neg (by simp [List.length_eq_zero, hA])]
      simp [recs_undone, hA]

theorem action_list_move_fwd_node (acts : List action) (pos : Nat) (hne : acts ≠ []) :
    action_list_move ⟨acts, pos, .node⟩ 1 =
      if pos = acts.length then ⟨acts, pos, .after_tail⟩ else ⟨acts, pos + 1, .node⟩ := by
  have hsz : action_list_size ⟨acts, pos, .node⟩ ≠ 0 := by
    simpa [action_list_size] using hne
  rw [action_list_move, if_neg (by norm_num), if_neg hsz, if_pos (by norm_num)]

theorem action_list_move_fwd_before_head (acts : List action) (pos : Nat)
    (hne : acts ≠ []) :
    action_list_move ⟨acts, pos, .before_head⟩ 1 = ⟨acts, 1, .node⟩ := by
  have hsz : action_list_size ⟨acts, pos, .before_head⟩ ≠ 0 := by
    simpa [action_list_size] using hne
  rw [action_list_move, if_neg (by norm_num), if_neg hsz, if_pos (by norm_num)]

theorem redo_step_forward (B : List Nat) (ed : edit) (hv : edit_valid B ed)
    (A R : List action) (st : curr_pos)
    (hst : (st = .before_head ∧ A = []) ∨ st = .node) :
    redo_step B ⟨A ++ rec_undone B ed :: R, A.length, st⟩ =
      (buf_after B ed,
       action_list_move ⟨A ++ rec_of B ed :: R, A.length, st⟩ 1) := by
  have hguard : ¬((⟨A ++ rec_undone B ed :: R, A.length, st⟩ : action_list).status
      = .after_tail ∨
      (⟨A ++ rec_undone B ed :: R, A.length, st⟩ : action_list).status = .nothing) := by
    rcases hst with ⟨h, _⟩ | h <;> simp [h]
  have hidx : (if (⟨A ++ rec_undone B ed :: R, A.length, st⟩ : action_list).status
      = .before_head then 0 else A.length) = A.length := by
    rcases hst with ⟨h, hA⟩ | h
    · simp [h, hA]
    · simp [h]
  cases ed with
  | ins off x =>
    rw [redo_step, if_neg hguard]
    dsimp only
    rw [hidx, list_getElem_append_length]
    simp only [rec_undone, rec_of, Int.toNat_natCast, buf_after]
  | app off x =>
    rw [redo_step, if_neg hguard]
    dsimp only
    rw [hidx, list_getElem_append_length]
    simp only [rec_undone, rec_of, Int.toNat_natCast, buf_after]
  | del off =>
    have hlen : ¬((B.length : Int) ≤ 0) := by
      have : off < B.length := hv
      omega
    rw [redo_step, if_neg hguard]
    dsimp only
    rw [hidx, list_getElem_append_length]
    simp only [rec_undone, rec_of, Int.toNat_natCast, buf_after, if_neg hlen]
  | rep off x =>
    rw [redo_step, if_neg hguard]
    dsimp only
    rw [hidx, list_getElem_append_length]
    simp only [rec_undone, rec_of, Int.toNat_natCast, buf_after]
    rw [list_set_append_length]

theorem redo_phase : ∀ (eds : List edit) (A : List action) (B : List Nat),
    edits_valid B eds →
    redo_stepN (B, ⟨A ++ recs_undone B eds, A.length,
        if A = [] ∧ eds ≠ [] then .before_head else .node⟩) eds.length
      = (buf_final B eds, ⟨A ++ recs B eds, A.length + eds.length, .node⟩) := by
  intro eds
  induction eds with
  | nil =>
    intro A B _
    simp [redo_stepN, buf_final, recs, recs_undone]
  | cons ed rest ih =>
    intro A B hval
    rw [List.length_cons, redo_stepN]
    dsimp only
    rw [show recs_undone B (ed :: rest)
          = rec_undone B ed :: recs_undone (buf_after B ed) rest from rfl]
    rw [redo_step_forward B ed hval.1 A (recs_undone (buf_after B ed) rest) _
        (by by_cases hA : A = [] <;> simp [hA])]
    by_cases hA : A = []
    · subst hA
      rw [if_pos (by simp)]
      rw [action_list_move_fwd_before_head _ _ (by simp)]
      have h2 := ih [rec_of B ed] (buf_after B ed) hval.2
      rw [show (if [rec_of B ed] = [] ∧ rest ≠ [] then curr_pos.before_head
            else curr_pos.node) = curr_pos.node by simp] at h2
      simp only [List.singleton_append, List.length_singleton] at h2
      simp only [List.nil_append, List.length_nil, buf_final, recs]
      rw [show (0 : Nat) + (rest.length + 1) = 1 + rest.length by omega]
      exact h2
    · rw [if_neg (by simp [hA])]
      rw [action_list_move_fwd_node _ _ (by simp)]
      rw [if_neg (by simp)]
      have h2 := ih (A ++ [rec_of B ed]) (buf_after B ed) hval.2
      rw [show (if A ++ [rec_of B ed] = [] ∧ rest ≠ [] then curr_pos.before_head
            else curr_pos.node) = curr_pos.node by simp] at h2
      simp only [List.append_assoc, List.singleton_append, List.length_append,
        List.length_singleton] at h2
      simp only [buf_final, recs]
      rw [show A.length + (rest.length + 1) = A.length + 1 + rest.length by omega]
      exact h2

/-- Claim C1 (corrected): for any sequence of byte-level edits (insert_at,
delete_at, replace_at, including after=true appends) applied to a
ByteBuffer and recorded into the UndoHistory, calling undo once per
recorded action (in reverse chronological order) restores the buffer to
its exact original byte sequence, and then calling redo once per action
restores the fully-edited byte sequence.  `edits_valid` is the offset
contract of the ByteBuffer operations (§4.1 of the spec), restricted so
that every append is recorded on a nonempty buffer: the original claim
also covered an append on the empty buffer, where undoing is the
unsigned-underflow UB of editor.c line 238 instead of a restoration — see
`C1_append_empty_undo_underflow`. -/
theorem C1_undo_redo_roundtrip (B : List Nat) (rows cols : Int) (eds : List edit)
    (h : edits_valid B eds) :
    (undoN (run_edits (init_editor B rows cols) eds) eds.length).contents = B ∧
    (redoN (undoN (run_edits (init_editor B rows cols) eds) eds.length)
        eds.length).contents
      = (run_edits (init_editor B rows cols) eds).contents := by
  have hrun := run_edits_pair eds (init_editor B rows cols)
  simp only [show (init_editor B rows cols).contents = B from rfl,
    show (init_editor B rows cols).undo_list = action_list_init from rfl] at hrun
  rw [edit_stepN_from_tail eds B action_list_init h rfl (Or.inr ⟨rfl, rfl⟩)] at hrun
  simp only [action_list_init, List.nil_append, List.length_nil, Nat.zero_add] at hrun
  cases heds : eds with
  | nil =>
    subst heds
    have hc := congrArg Prod.fst hrun
    simp only at hc
    simp [undoN, redoN, hc, buf_final]
  | cons ed rest =>
    subst heds
    rw [if_neg (by simp)] at hrun
    have hupair := undoN_pair (ed :: rest).length
      (run_edits (init_editor B rows cols) (ed :: rest))
    rw [hrun] at hupair
    rw [show ((buf_final B (ed :: rest),
          (⟨recs B (ed :: rest), (ed :: rest).length, curr_pos.node⟩ : action_list)))
        = (buf_final B (ed :: rest),
          (⟨[] ++ recs B (ed :: rest), [].length + (ed :: rest).length,
            curr_pos.node⟩ : action_list)) by simp] at hupair
    rw [undo_phase (ed :: rest) [] B h] at hupair
    have hc1 : (undoN (run_edits (init_editor B rows cols) (ed :: rest))
        (ed :: rest).length).contents = B := congrArg Prod.fst hupair
    refine ⟨hc1, ?_⟩
    have hrpair := redoN_pair (ed :: rest).length
      (undoN (run_edits (init_editor B rows cols) (ed :: rest)) (ed :: rest).length)
    rw [hupair] at hrpair
    rw [show ((if ([] : List action) = [] ∧ (ed :: rest : List edit) ≠ [] then
          curr_pos.before_head else curr_pos.node)) = curr_pos.before_head by simp]
      at hrpair
    rw [show ((B, (⟨[] ++ recs_undone B (ed :: rest), ([] : List action).length,
          curr_pos.before_head⟩ : action_list)))
        = (B, (⟨[] ++ recs_undone B (ed :: rest), ([] : List action).length,
            if ([] : List action) = [] ∧ (ed :: rest : List edit) ≠ [] then
              curr_pos.before_head else curr_pos.node⟩ : action_list)) by simp]
      at hrpair
    rw [redo_phase (ed :: rest) [] B h] at hrpair
    have hc2 := congrArg Prod.fst hrpair
    simp only at hc2
    rw [hc2]
    exact (congrArg Prod.fst hrun).symm

theorem editor_undo_undo_list (e : editor) :
    (editor_undo e).undo_list = (undo_step e.contents e.undo_list).2 :=
  congrArg Prod.snd (editor_undo_pair e)

theorem undo_step_snd_of_node (C : List Nat) (acts : List action) (pos : Nat) (a : action)
    (h : acts[pos - 1]? = some a) :
    ∃ acts', acts'.length = acts.length ∧
      acts'.take (pos - 1) = acts.take (pos - 1) ∧
      (undo_step C ⟨acts, pos, .node⟩).2 = action_list_move ⟨acts', pos, .node⟩ (-1) := by
  obtain ⟨act, aoff, ac⟩ := a
  cases act with
  | replace =>
    refine ⟨acts.set (pos - 1) ⟨.replace, aoff, C.getD aoff.toNat 0⟩, by simp,
      list_take_set_self acts (pos - 1) _, ?_⟩
    simp only [undo_step, h, reduceCtorEq, reduceIte, ne_eq, not_true_eq_false,
      if_false, Bool.false_eq_true]
  | delete =>
    refine ⟨acts, rfl, rfl, ?_⟩
    simp only [undo_step, h, reduceCtorEq, reduceIte, ne_eq, not_true_eq_false,
      if_false, Bool.false_eq_true]
  | insert =>
    refine ⟨acts, rfl, rfl, ?_⟩
    simp only [undo_step, h, reduceCtorEq, reduceIte, ne_eq, not_true_eq_false,
      if_false, Bool.false_eq_true]
  | append =>
    refine ⟨acts, rfl, rfl, ?_⟩
    simp only [undo_step, h, reduceCtorEq, reduceIte, ne_eq, not_true_eq_false,
      if_false, Bool.false_eq_true]

/-- Claim C2: recording a new action while curr sits strictly before the
tail prunes every action after curr before appending the new one (NODE:
keep the first pos actions; BEFORE_HEAD: drop everything), and in the
concrete scenario record A, B, C, undo twice, record D the history holds
exactly [A, D] (size 2) and a subsequent redo reports "No action to
redo". -/
theorem C2_redo_branch_pruning (e : editor) (a b c d : action) (h : e.undo_list = action_list_init) :
    (∀ (l : action_list) (ty : action_type) (off : Int) (cc : Nat),
      l.status = .node → l.pos < l.acts.length →
      (action_list_add l ty off cc).acts = l.acts.take l.pos ++ [⟨ty, off, cc⟩]) ∧
    (∀ (l : action_list) (ty : action_type) (off : Int) (cc : Nat),
      l.status = .before_head →
      (action_list_add l ty off cc).acts = [⟨ty, off, cc⟩]) ∧
    (action_list_size (run_history_ops e
        [.record a.act a.offset a.c, .record b.act b.offset b.c,
         .record c.act c.offset c.c, .undo, .undo,
         .record d.act d.offset d.c]).undo_list = 2 ∧
     (run_history_ops e
        [.record a.act a.offset a.c, .record b.act b.offset b.c,
         .record c.act c.offset c.c, .undo, .undo,
         .record d.act d.offset d.c]).undo_list.acts = [a, d] ∧
     editor_redo (run_history_ops e
        [.record a.act a.offset a.c, .record b.act b.offset b.c,
         .record c.act c.offset c.c, .undo, .undo,
         .record d.act d.offset d.c]) =
       editor_statusmessage (run_history_ops e
        [.record a.act a.offset a.c, .record b.act b.offset b.c,
         .record c.act c.offset c.c, .undo, .undo,
         .record d.act d.offset d.c]) .info "No action to redo") := by
  refine ⟨?_, ?_, ?_⟩
  · intro l ty off cc hst hlt
    have hne : l.acts ≠ [] := by
      intro hx
      rw [hx] at hlt
      simp at hlt
    rw [action_list_add, if_pos ⟨hne, by intro ⟨_, hp⟩; omega⟩]
    rw [hst]
  · intro l ty off cc hst
    by_cases hne : l.acts = []
    · rw [action_list_add, if_neg (by simp [hne])]
      simp [hne]
    · rw [action_list_add, if_pos ⟨hne, by intro ⟨hp, _⟩; rw [hst] at hp; simp at hp⟩]
      rw [hst]
      rfl
  · -- the A,B,C / undo / undo / D scenario
    set ops := [history_op.record a.act a.offset a.c, .record b.act b.offset b.c,
         .record c.act c.offset c.c, .undo, .undo, .record d.act d.offset d.c] with hops
    -- after the three records
    have h3 : (do_history_op (do_history_op (do_history_op e
        (.record a.act a.offset a.c)) (.record b.act b.offset b.c))
        (.record c.act c.offset c.c)).undo_list = ⟨[a, b, c], 3, .node⟩ := by
      simp only [do_history_op, h, action_list_init, action_list_add]
      simp
    set e3 := do_history_op (do_history_op (do_history_op e
        (.record a.act a.offset a.c)) (.record b.act b.offset b.c))
        (.record c.act c.offset c.c) with he3
    -- first undo
    obtain ⟨acts1, hlen1, htake1, hu1⟩ :=
      undo_step_snd_of_node e3.contents [a, b, c] 3 c (by simp)
    have h4 : (editor_undo e3).undo_list = ⟨acts1, 2, .node⟩ := by
      rw [editor_undo_undo_list, h3, hu1, action_list_move_back_node _ _
        (by intro hx; rw [hx] at hlen1; simp at hlen1)]
      simp
    -- acts1 = [a, b, z] for some z
    obtain ⟨z, hz⟩ : ∃ z, acts1 = [a, b, z] := by
      rcases acts1 with _ | ⟨x, _ | ⟨y, _ | ⟨z, rest⟩⟩⟩ <;> simp_all
    -- second undo
    obtain ⟨acts2, hlen2, htake2, hu2⟩ :=
      undo_step_snd_of_node (editor_undo e3).contents [a, b, z] 2 b (by simp)
    have h5 : (editor_undo (editor_undo e3)).undo_list = ⟨acts2, 1, .node⟩ := by
      rw [editor_undo_undo_list, h4, hz, hu2, action_list_move_back_node _ _
        (by intro hx; rw [hx] at hlen2; simp at hlen2)]
      simp
    -- acts2 = [a, y', z'] for some y', z'
    obtain ⟨y', z', hyz⟩ : ∃ y' z', acts2 = [a, y', z'] := by
      rcases acts2 with _ | ⟨x, _ | ⟨y, _ | ⟨w, rest⟩⟩⟩ <;> simp_all
    -- record D
    have h6 : (run_history_ops e ops).undo_list = ⟨[a, d], 2, .node⟩ := by
      rw [hops]
      show (do_history_op (editor_undo (editor_undo e3))
        (.record d.act d.offset d.c)).undo_list = _
      simp only [do_history_op, h5, hyz, action_list_add]
      simp
    refine ⟨by rw [action_list_size, h6]; rfl, by rw [h6], ?_⟩
    rw [editor_redo, h6]
    simp

theorem editor_redo_undo_list (e : editor) :
    (editor_redo e).undo_list = (redo_step e.contents e.undo_list).2 :=
  congrArg Prod.snd (editor_redo_pair e)

theorem ul_ok_init : ul_ok action_list_init := by
  simp [ul_ok, action_list_init]

theorem ul_ok_add (ul : action_list) (ty : action_type) (off : Int) (c : Nat) :
    ul_ok (action_list_add ul ty off c) := by
  rw [action_list_add]
  refine ⟨by simp, by simp, ?_, by simp⟩
  intro _
  simp

theorem redo_step_snd_of_node (C : List Nat) (acts : List action) (pos : Nat) (a : action)
    (h : acts[pos]? = some a) :
    ∃ acts', acts'.length = acts.length ∧
      (redo_step C ⟨acts, pos, .node⟩).2 = action_list_move ⟨acts', pos, .node⟩ 1 := by
  obtain ⟨act, aoff, ac⟩ := a
  cases act with
  | replace =>
    refine ⟨acts.set pos ⟨.replace, aoff, C.getD aoff.toNat 0⟩, by simp, ?_⟩
    simp only [redo_step, h, reduceCtorEq, reduceIte, ne_eq, not_true_eq_false,
      if_false, Bool.false_eq_true, or_self]
  | delete =>
    refine ⟨acts, rfl, ?_⟩
    simp only [redo_step, h, reduceCtorEq, reduceIte, ne_eq, not_true_eq_false,
      if_false, Bool.false_eq_true, or_self]
  | insert =>
    refine ⟨acts, rfl, ?_⟩
    simp only [redo_step, h, reduceCtorEq, reduceIte, ne_eq, not_true_eq_false,
      if_false, Bool.false_eq_true, or_self]
  | append =>
    refine ⟨acts, rfl, ?_⟩
    simp only [redo_step, h, reduceCtorEq, reduceIte, ne_eq, not_true_eq_false,
      if_false, Bool.false_eq_true, or_self]

theorem redo_step_snd_of_before_head (C : List Nat) (acts : List action) (pos : Nat)
    (a : action) (h : acts[(0 : Nat)]? = some a) :
    ∃ acts', acts'.length = acts.length ∧
      (redo_step C ⟨acts, pos, .before_head⟩).2 =
        action_list_move ⟨acts', pos, .before_head⟩ 1 := by
  obtain ⟨act, aoff, ac⟩ := a
  cases act with
  | replace =>
    refine ⟨acts.set 0 ⟨.replace, aoff, C.getD aoff.toNat 0⟩, by simp, ?_⟩
    simp only [redo_step, h, reduceCtorEq, reduceIte, ne_eq, not_true_eq_false,
      if_false, Bool.false_eq_true, or_self, or_false, false_or]
  | delete =>
    refine ⟨acts, rfl, ?_⟩
    simp only [redo_step, h, reduceCtorEq, reduceIte, ne_eq, not_true_eq_false,
      if_false, Bool.false_eq_true, or_self, or_false, false_or]
  | insert =>
    refine ⟨acts, rfl, ?_⟩
    simp only [redo_step, h, reduceCtorEq, reduceIte, ne_eq, not_true_eq_false,
      if_false, Bool.false_eq_true, or_self, or_false, false_or]
  | append =>
    refine ⟨acts, rfl, ?_⟩
    simp only [redo_step, h, reduceCtorEq, reduceIte, ne_eq, not_true_eq_false,
      if_false, Bool.false_eq_true, or_self, or_false, false_or]

theorem ul_ok_undo_step (C : List Nat) (ul : action_list) (hok : ul_ok ul) :
    ul_ok (undo_step C ul).2 := by
  obtain ⟨acts, pos, st⟩ := ul
  cases st with
  | nothing => exact hok
  | before_head => exact hok
  | after_tail => exact absurd rfl hok.2.2.2
  | node =>
    obtain ⟨hp1, hp2⟩ := hok.2.2.1 rfl
    dsimp only at hp1 hp2
    have hlt : pos - 1 < acts.length := by omega
    obtain ⟨acts', hlen, _, hstep⟩ :=
      undo_step_snd_of_node C acts pos acts[pos - 1] (List.getElem?_eq_getElem hlt)
    rw [hstep, action_list_move_back_node _ _
      (by intro hx; rw [hx] at hlen; simp at hlen; omega)]
    split
    · refine ⟨by simp, ?_, by simp, by simp⟩
      dsimp only
      intro _ hx
      rw [hx] at hlen
      simp at hlen
      omega
    · refine ⟨by simp, by simp, ?_, by simp⟩
      dsimp only
      intro _
      rename_i hne1
      rw [hlen]
      omega

theorem ul_ok_redo_step (C : List Nat) (ul : action_list) (hok : ul_ok ul) :
    ul_ok (redo_step C ul).2 := by
  obtain ⟨acts, pos, st⟩ := ul
  cases st with
  | nothing => exact hok
  | after_tail => exact absurd rfl hok.2.2.2
  | before_head =>
    cases hA : acts[(0 : Nat)]? with
    | none =>
      simp only [redo_step, hA, reduceCtorEq, or_self, if_false, Bool.false_eq_true,
        reduceIte, if_true]
      exact hok
    | some a =>
      have hlen0 : 0 < acts.length := by
        by_contra hx
        rw [List.getElem?_eq_none (by omega)] at hA
        exact Option.noConfusion hA
      obtain ⟨acts', hlen, hstep⟩ := redo_step_snd_of_before_head C acts pos a hA
      rw [hstep, action_list_move_fwd_before_head _ _
        (by intro hx; rw [hx] at hlen; simp at hlen; omega)]
      refine ⟨by simp, by simp, ?_, by simp⟩
      dsimp only
      intro _
      rw [hlen]
      omega
  | node =>
    obtain ⟨hp1, hp2⟩ := hok.2.2.1 rfl
    dsimp only at hp1 hp2
    cases hA : acts[pos]? with
    | none =>
      simp only [redo_step, hA, reduceCtorEq, or_self, if_false, Bool.false_eq_true,
        reduceIte, if_true]
      exact hok
    | some a =>
      have hplen : pos < acts.length := by
        by_contra hx
        rw [List.getElem?_eq_none (by omega)] at hA
        exact Option.noConfusion hA
      obtain ⟨acts', hlen, hstep⟩ := redo_step_snd_of_node C acts pos a hA
      rw [hstep, action_list_move_fwd_node _ _
        (by intro hx; rw [hx] at hlen; simp at hlen; omega)]
      rw [if_neg (by rw [hlen]; omega)]
      refine ⟨by simp, by simp, ?_, by simp⟩
      dsimp only
      intro _
      rw [hlen]
      omega

theorem run_history_ops_ok (ops : List history_op) : ∀ e : editor,
    ul_ok e.undo_list → ul_ok (run_history_ops e ops).undo_list := by
  induction ops with
  | nil => intro e h; exact h
  | cons o rest ih =>
    intro e h
    rw [run_history_ops]
    apply ih
    cases o with
    | record ty off c =>
      simp only [do_history_op]
      exact ul_ok_add e.undo_list ty off c
    | undo =>
      simp only [do_history_op]
      rw [editor_undo_undo_list]
      exact ul_ok_undo_step e.contents e.undo_list h
    | redo =>
      simp only [do_history_op]
      rw [editor_redo_undo_list]
      exact ul_ok_redo_step e.contents e.undo_list h

/-- Claim C9: starting from a freshly initialised editor, no sequence of
record / undo / redo operations ever leaves the history cursor in the
AFTER_TAIL state. -/
theorem C9_after_tail_unreachable (B : List Nat) (rows cols : Int) (ops : List history_op) :
    (run_history_ops (init_editor B rows cols) ops).undo_list.status ≠ .after_tail :=
  (run_history_ops_ok ops (init_editor B rows cols) ul_ok_init).2.2.2

theorem u32_eq_self (i : Int) (h0 : 0 ≤ i) (h1 : i < 2 ^ 32) : u32 i = i :=
  Int.emod_eq_of_lt h0 h1

theorem offset_at_cursor_set_cursor (e : editor) (off : Nat)
    (hopl : 0 < e.octets_per_line)
    (hlen : content_length e ≤ 2 ^ 31)
    (hlt : (off : Int) < content_length e) :
    editor_offset_at_cursor
      { e with cursor_x := (editor_cursor_at_offset e (off : Int)).1,
               cursor_y := (editor_cursor_at_offset e (off : Int)).2 } = (off : Int) := by
  have hoff0 : (0 : Int) ≤ (off : Int) := Int.natCast_nonneg off
  have hlen0 : (0 : Int) ≤ content_length e := Int.natCast_nonneg _
  have hdm : Int.tdiv (off : Int) e.octets_per_line * e.octets_per_line
      + Int.tmod (off : Int) e.octets_per_line = (off : Int) := by
    have h := Int.tdiv_add_tmod (off : Int) e.octets_per_line
    rw [Int.mul_comm] at h
    exact h
  simp only [content_length] at hlen hlt hlen0
  unfold editor_offset_at_cursor editor_cursor_at_offset content_length
  dsimp only
  have hinner : (Int.tdiv (off : Int) e.octets_per_line - e.line + 1 - 1 + e.line)
      * e.octets_per_line + (Int.tmod (off : Int) e.octets_per_line + 1 - 1)
      = (off : Int) := by
    calc (Int.tdiv (off : Int) e.octets_per_line - e.line + 1 - 1 + e.line)
        * e.octets_per_line + (Int.tmod (off : Int) e.octets_per_line + 1 - 1)
        = Int.tdiv (off : Int) e.octets_per_line * e.octets_per_line
          + Int.tmod (off : Int) e.octets_per_line := by ring
      _ = (off : Int) := hdm
  rw [hinner]
  rw [u32_eq_self (off : Int) hoff0 (by omega)]
  by_cases h0 : (off : Int) ≤ 0
  · rw [if_pos h0]
    omega
  · rw [if_neg h0, if_neg ?hno]
    case hno =>
      rw [u32_eq_self ((e.contents.length : Nat) : Int) hlen0 (by omega)]
      omega

theorem offset_at_cursor_scroll_to_offset (e : editor) (off : Nat)
    (hopl : 0 < e.octets_per_line)
    (hlen : content_length e ≤ 2 ^ 31)
    (hlt : (off : Int) < content_length e) :
    editor_offset_at_cursor (editor_scroll_to_offset e off) = (off : Int) := by
  unfold editor_scroll_to_offset
  dsimp only
  rw [if_neg ?hout]
  case hout =>
    rw [u32_eq_self (content_length e) (Int.natCast_nonneg _) (by omega)]
    omega
  split
  · exact offset_at_cursor_set_cursor e off hopl hlen hlt
  · split <;> split <;>
      exact offset_at_cursor_set_cursor _ off hopl hlen hlt

theorem editor_offset_at_cursor_bounds (e : editor)
    (hlen1 : 1 ≤ content_length e) (hlen : content_length e ≤ 2 ^ 31) :
    0 ≤ editor_offset_at_cursor e ∧
      editor_offset_at_cursor e ≤ content_length e - 1 := by
  unfold editor_offset_at_cursor
  dsimp only
  split
  · omega
  · split
    · omega
    · rename_i h1 h2
      rw [u32_eq_self (content_length e) (by omega) (by omega)] at h2
      have := Int.emod_nonneg ((e.cursor_y - 1 + e.line) * e.octets_per_line
        + (e.cursor_x - 1)) (by norm_num : (2 : Int) ^ 32 ≠ 0)
      constructor
      · exact this
      · omega

theorem find_fwd_nil_pat (contents : List Nat) (k : Nat) (h : k < contents.length) :
    find_fwd contents [] k = some k := by
  rw [find_fwd]
  simp [match_at, h]

theorem editor_scroll_to_offset_status (e : editor) (off : Nat)
    (h : ¬((off : Int) > u32 (content_length e))) :
    (editor_scroll_to_offset e off).status_message = e.status_message ∧
      (editor_scroll_to_offset e off).status_severity = e.status_severity := by
  unfold editor_scroll_to_offset
  dsimp only
  rw [if_neg h]
  split
  · exact ⟨rfl, rfl⟩
  · constructor <;>
      simp [apply_ite editor.status_message, apply_ite editor.status_severity]

theorem editor_process_search_searchstr (e : editor) (str : String)
    (dir : search_direction) (hne : ¬str = "") :
    editor_process_search e str dir
      = editor_process_search { e with searchstr := str } str dir := by
  unfold editor_process_search
  rw [if_neg hne, if_neg hne]
  by_cases hss : str ≠ e.searchstr
  · rw [if_pos hss, if_neg (by simp)]
  · rw [if_neg hss, if_neg (by simp)]
    push_neg at hss
    rw [show ({ e with searchstr := str } : editor) = e by rw [hss]]

/-- Claim C10: searching forward for the pattern backslash-x-0-0 (a single
NUL byte) succeeds immediately at the next offset on any buffer, because
the pattern is kept as a NUL-terminated C string whose strlen is 0, so the
zero-length memcmp matches everywhere; the status bar is left clear. -/
theorem C10_search_nul_terminated (e : editor)
    (hopl : 0 < e.octets_per_line)
    (hlen : content_length e ≤ 2 ^ 31)
    (h1 : editor_offset_at_cursor e + 1 < content_length e) :
    editor_offset_at_cursor (editor_process_search e "\\x00" .forward)
      = editor_offset_at_cursor e + 1 ∧
    (editor_process_search e "\\x00" .forward).status_message = "" ∧
    (editor_process_search e "\\x00" .forward).status_severity = .info := by
  have hlen1 : 1 ≤ content_length e := by
    have h1' := h1
    unfold editor_offset_at_cursor at h1'
    dsimp only at h1'
    split at h1'
    · omega
    · split at h1'
      · omega
      · rename_i ha _
        omega
  obtain ⟨ho0, hole⟩ := editor_offset_at_cursor_bounds e hlen1 hlen
  rw [editor_process_search_searchstr e _ _ (by decide)]
  unfold editor_process_search
  rw [if_neg (by decide)]
  rw [if_neg (by simp : ¬(("\\x00" : String)
      ≠ ({ e with searchstr := "\\x00" } : editor).searchstr))]
  rw [show parse_search_string ("\\x00" : String).data = Except.ok [0] from rfl]
  dsimp only
  rw [show List.takeWhile (fun b => decide (b ≠ 0)) [0] = ([] : List Nat) from rfl]
  have hco : u32 (editor_offset_at_cursor
      ({ e with searchstr := "\\x00" } : editor)) = editor_offset_at_cursor e := by
    rw [show editor_offset_at_cursor ({ e with searchstr := "\\x00" } : editor)
        = editor_offset_at_cursor e from rfl]
    exact u32_eq_self _ ho0 (by unfold content_length at *; omega)
  rw [hco]
  have hnat : ((editor_offset_at_cursor e).toNat : Int) = editor_offset_at_cursor e :=
    Int.toNat_of_nonneg ho0
  have hfind : find_fwd ({ e with searchstr := "\\x00" } : editor).contents []
      ((editor_offset_at_cursor e).toNat + 1) = some ((editor_offset_at_cursor e).toNat + 1) := by
    apply find_fwd_nil_pat
    show (editor_offset_at_cursor e).toNat + 1 < e.contents.length
    unfold content_length at h1
    omega
  rw [hfind]
  have hsc := offset_at_cursor_scroll_to_offset
    (editor_statusmessage ({ e with searchstr := "\\x00" } : editor) .info "")
    ((editor_offset_at_cursor e).toNat + 1) hopl hlen
    (by
      show (((editor_offset_at_cursor e).toNat + 1 : Nat) : Int) < content_length e
      omega)
  have hst := editor_scroll_to_offset_status
    (editor_statusmessage ({ e with searchstr := "\\x00" } : editor) .info "")
    ((editor_offset_at_cursor e).toNat + 1)
    (by
      show ¬((((editor_offset_at_cursor e).toNat + 1 : Nat) : Int)
        > u32 (content_length e))
      rw [u32_eq_self (content_length e) (Int.natCast_nonneg e.contents.length)
        (by omega)]
      omega)
  refine ⟨?_, hst.1, hst.2⟩
  rw [hsc]
  push_cast
  omega


/-- Claim C3 (code bug): the claim says a backward search started from
offset 4 on the buffer 41 42 43 41 42 with pattern 41 42 finds the match at
offset 3.  The code (editor.c lines 957-968) decrements `current_offset`
once before the loop and once more inside the loop condition before the
first comparison, so it compares offsets 2, 1, 0 only — the adjacent match
at offset 3 is skipped and the search lands on offset 0. -/
theorem C3_backward_search_skips_adjacent :
    editor_offset_at_cursor search_demo_editor = 4 ∧
    match_at search_demo_editor.contents [0x41, 0x42] 3 = true ∧
    find_bwd search_demo_editor.contents [0x41, 0x42] 3 = some 0 ∧
    editor_offset_at_cursor
      (editor_process_search search_demo_editor "AB" .backward) = 0 ∧
    editor_offset_at_cursor
      (editor_process_search search_demo_editor "AB" .backward) ≠ 3 := by
  refine ⟨rfl, rfl, rfl, rfl, by decide⟩

/-- Claim C4: for every offset in `[0, length)` that lies within the
currently visible window while `top_line` (`e.line`) is held fixed,
converting the offset to a cursor position with `editor_cursor_at_offset`
and then converting that cursor position back with
`editor_offset_at_cursor` yields the same offset.  (`content_length ≤ 2^31`
keeps the C `int` length in range.) -/
theorem C4_cursor_offset_roundtrip (e : editor) (off : Nat)
    (hopl : 0 < e.octets_per_line)
    (hlen : content_length e ≤ 2 ^ 31)
    (hlt : (off : Int) < content_length e)
    (hwin : 1 ≤ (editor_cursor_at_offset e (off : Int)).2 ∧
            (editor_cursor_at_offset e (off : Int)).2 ≤ e.screen_rows - 1) :
    editor_offset_at_cursor
      { e with cursor_x := (editor_cursor_at_offset e (off : Int)).1,
               cursor_y := (editor_cursor_at_offset e (off : Int)).2 } = (off : Int) :=
  offset_at_cursor_set_cursor e off hopl hlen hlt

/-- Witness for C4 at a concrete editor (40-byte buffer, offset 5). -/
theorem C4_cursor_offset_roundtrip_witness :
    (0 : Int) < (init_editor (List.replicate 40 0) 24 80).octets_per_line ∧
    content_length (init_editor (List.replicate 40 0) 24 80) ≤ 2 ^ 31 ∧
    ((5 : Nat) : Int) < content_length (init_editor (List.replicate 40 0) 24 80) ∧
    (1 ≤ (editor_cursor_at_offset (init_editor (List.replicate 40 0) 24 80)
        ((5 : Nat) : Int)).2 ∧
      (editor_cursor_at_offset (init_editor (List.replicate 40 0) 24 80)
        ((5 : Nat) : Int)).2
        ≤ (init_editor (List.replicate 40 0) 24 80).screen_rows - 1) ∧
    editor_offset_at_cursor
      { init_editor (List.replicate 40 0) 24 80 with
        cursor_x := (editor_cursor_at_offset (init_editor (List.replicate 40 0) 24 80)
          ((5 : Nat) : Int)).1,
        cursor_y := (editor_cursor_at_offset (init_editor (List.replicate 40 0) 24 80)
          ((5 : Nat) : Int)).2 } = ((5 : Nat) : Int) := by
  refine ⟨by decide, by decide, by decide, ⟨by decide, by decide⟩, ?_⟩
  exact C4_cursor_offset_roundtrip (init_editor (List.replicate 40 0) 24 80) 5
    (by decide) (by decide) (by decide) ⟨by decide, by decide⟩

/-- Claim C5 (code bug): the claim says every mutation of the buffer sets
the dirty flag, in particular `editor_increment_byte` (the `]`/`[`
operation).  The code (editor.c lines 244-250) mutates the byte and records
a REPLACE action but never touches `e->dirty`: on a 1-byte buffer the byte
changes from 0 to 1 while `dirty` stays false. -/
theorem C5_increment_leaves_dirty_false :
    (editor_increment_byte (init_editor [0] 24 80) 1).contents = [1] ∧
    (editor_increment_byte (init_editor [0] 24 80) 1).dirty = false ∧
    (init_editor [0] 24 80).dirty = false := ⟨rfl, rfl, rfl⟩

/-- Unfolding equation for `parse_search_string` on a backslash-x escape. -/
theorem parse_bs_x_cons (c0 c1 : Char) (rest : List Char) :
    parse_search_string ('\\' :: 'x' :: c0 :: c1 :: rest) =
      if (isxdigit c0 && isxdigit c1) = true then
        (parse_search_string rest).map (fun l => hex2bin c0 c1 :: l)
      else .error .invalid_hex := rfl

/-- Claim C6: `parse_search_string` succeeds returning one byte per object
(an unescaped character maps to its own byte value, a double backslash to
byte 0x5c, backslash-x followed by two hex digits to the `hex2bin` value of
those digits), and fails with exactly these classifications: InvalidEscape
when any other character follows a backslash, IncompleteBackslash for a
trailing lone backslash, IncompleteHex when backslash-x is followed by
fewer than two characters before end of input, and InvalidHex when either
of the two characters after backslash-x is not a hex digit.  (Characters
are those before the C string's terminating NUL, so the NUL character is
excluded from the quantifications.) -/
theorem C6_parse_search_string_classification :
    (parse_search_string [] = .ok []) ∧
    (∀ (c : Char) (rest : List Char), c ≠ '\\' → c ≠ '\x00' →
      parse_search_string (c :: rest) =
        (parse_search_string rest).map (fun l => c.toNat :: l)) ∧
    (∀ rest, parse_search_string ('\\' :: '\\' :: rest) =
        (parse_search_string rest).map (fun l => 0x5c :: l)) ∧
    (∀ (h0 h1 : Char) (rest : List Char), isxdigit h0 = true → isxdigit h1 = true →
      parse_search_string ('\\' :: 'x' :: h0 :: h1 :: rest) =
        (parse_search_string rest).map (fun l => hex2bin h0 h1 :: l)) ∧
    (parse_search_string ['\\'] = .error .incomplete_backslash) ∧
    (parse_search_string ['\\', 'x'] = .error .incomplete_hex) ∧
    (∀ c : Char, parse_search_string ['\\', 'x', c] = .error .incomplete_hex) ∧
    (∀ (h0 h1 : Char) (rest : List Char), ¬(isxdigit h0 = true ∧ isxdigit h1 = true) →
      parse_search_string ('\\' :: 'x' :: h0 :: h1 :: rest) = .error .invalid_hex) ∧
    (∀ (c : Char) (rest : List Char), c ≠ '\\' → c ≠ 'x' → c ≠ '\x00' →
      parse_search_string ('\\' :: c :: rest) = .error .invalid_escape) := by
  refine ⟨rfl, ?_, ?_, ?_, rfl, rfl, ?_, ?_, ?_⟩
  · intro c rest h h0
    rw [parse_search_string.eq_def]
    split
    · simp_all
    · simp_all
    · simp_all
  · intro rest; rfl
  · intro h0 h1 rest hx0 hx1
    rw [parse_bs_x_cons, if_pos (by simp [hx0, hx1])]
  · intro c; rfl
  · intro h0 h1 rest hx
    rw [parse_bs_x_cons, if_neg (by simpa using hx)]
  · intro c rest h hx h0
    rw [parse_search_string.eq_def]
    split
    · simp_all
    · split <;> simp_all
    · rename_i hne heq
      injection heq with h1 h2
      exact absurd h1.symm hne

/-- Witness for C6: a valid hex escape and an ordinary character parse to
their byte values. -/
theorem C6_parse_search_string_classification_witness :
    parse_search_string ['\\', 'x', '4', '1'] = .ok [65] ∧
    parse_search_string ['a'] = .ok [97] := by
  have h := C6_parse_search_string_classification
  constructor
  · have h4 := h.2.2.2.1 '4' '1' [] (by decide) (by decide)
    rw [h4, h.1]
    rfl
  · have ha := h.2.1 'a' [] (by decide) (by decide)
    rw [ha, h.1]
    rfl

/-- Claim C7: deleting the byte at the cursor in a buffer of length 1
leaves the buffer with length 0 and the cursor clamped to (1,1); a
subsequent delete on the now-empty buffer is a no-op that changes nothing
but the status line, which reports the non-fatal warning
"Nothing to delete". -/
theorem C7_delete_last_byte (b : Nat) :
    (editor_delete_char_at_cursor (init_editor [b] 24 80)).contents = [] ∧
    content_length (editor_delete_char_at_cursor (init_editor [b] 24 80)) = 0 ∧
    (editor_delete_char_at_cursor (init_editor [b] 24 80)).cursor_x = 1 ∧
    (editor_delete_char_at_cursor (init_editor [b] 24 80)).cursor_y = 1 ∧
    editor_delete_char_at_cursor (editor_delete_char_at_cursor (init_editor [b] 24 80)) =
      editor_statusmessage (editor_delete_char_at_cursor (init_editor [b] 24 80))
        .warning "Nothing to delete" ∧
    (editor_delete_char_at_cursor
        (editor_delete_char_at_cursor (init_editor [b] 24 80))).contents = [] ∧
    (editor_delete_char_at_cursor
        (editor_delete_char_at_cursor (init_editor [b] 24 80))).status_severity
      = .warning := by
  refine ⟨rfl, rfl, rfl, rfl, rfl, rfl, rfl⟩

/-- Claim C8 (code bug): the claim says `set grouping=N` clamps N into
[2,16] and accepts every N already in [2,16] (including 2 and 3) unchanged.
The code (editor.c line 794) calls `clampi(setval, 4, 16)`, so 2 and 3 are
forced up to 4 — even though the editor's own default grouping set by
`editor_init` is 2, which the setter can therefore never restore. -/
theorem C8_grouping_clamped_to_four :
    (editor_process_command (init_editor [1, 2, 3] 24 80) "set grouping=2").grouping = 4 ∧
    (editor_process_command (init_editor [1, 2, 3] 24 80) "set grouping=3").grouping = 4 ∧
    (editor_process_command (init_editor [1, 2, 3] 24 80) "set grouping=8").grouping = 8 ∧
    (init_editor [1, 2, 3] 24 80).grouping = 2 ∧
    clampi 2 4 16 = 4 := by
  refine ⟨by decide, by decide, by decide, rfl, by decide⟩

/-- Witness for C1: a concrete 4-edit sequence (insert, replace, append,
delete) on the buffer [5, 6] round-trips through undo and redo. -/
theorem C1_undo_redo_roundtrip_witness :
    edits_valid [5, 6] [edit.ins 0 1, edit.rep 0 2, edit.app 0 7, edit.del 1] ∧
    (undoN (run_edits (init_editor [5, 6] 24 80)
        [edit.ins 0 1, edit.rep 0 2, edit.app 0 7, edit.del 1]) 4).contents = [5, 6] ∧
    (redoN (undoN (run_edits (init_editor [5, 6] 24 80)
          [edit.ins 0 1, edit.rep 0 2, edit.app 0 7, edit.del 1]) 4) 4).contents
      = (run_edits (init_editor [5, 6] 24 80)
          [edit.ins 0 1, edit.rep 0 2, edit.app 0 7, edit.del 1]).contents := by
  have h := C1_undo_redo_roundtrip [5, 6] 24 80
    [edit.ins 0 1, edit.rep 0 2, edit.app 0 7, edit.del 1] (by decide)
  exact ⟨by decide, h.1, h.2⟩

/-- Witness for C2: three replace records on a 1-byte buffer, two undos, a
new record, then redo has nothing to do and the history holds two
actions. -/
theorem C2_redo_branch_pruning_witness :
    action_list_size (run_history_ops (init_editor [1] 24 80)
      [.record action_type.replace 0 1, .record action_type.replace 0 2,
       .record action_type.replace 0 3, .undo, .undo,
       .record action_type.insert 1 4]).undo_list = 2 ∧
    (run_history_ops (init_editor [1] 24 80)
      [.record action_type.replace 0 1, .record action_type.replace 0 2,
       .record action_type.replace 0 3, .undo, .undo,
       .record action_type.insert 1 4]).undo_list.acts
      = [⟨action_type.replace, 0, 1⟩, ⟨action_type.insert, 1, 4⟩] ∧
    editor_redo (run_history_ops (init_editor [1] 24 80)
      [.record action_type.replace 0 1, .record action_type.replace 0 2,
       .record action_type.replace 0 3, .undo, .undo,
       .record action_type.insert 1 4])
      = editor_statusmessage (run_history_ops (init_editor [1] 24 80)
        [.record action_type.replace 0 1, .record action_type.replace 0 2,
         .record action_type.replace 0 3, .undo, .undo,
         .record action_type.insert 1 4]) .info "No action to redo" := by
  have h := C2_redo_branch_pruning (init_editor [1] 24 80)
    ⟨action_type.replace, 0, 1⟩ ⟨action_type.replace, 0, 2⟩
    ⟨action_type.replace, 0, 3⟩ ⟨action_type.insert, 1, 4⟩ rfl
  exact h.2.2

/-- Witness for C10: a forward search for the pattern backslash-x-0-0 on a
4-byte buffer with the cursor at offset 0 reports a hit at offset 1. -/
theorem C10_witness :
    editor_offset_at_cursor
        (editor_process_search (init_editor [9, 9, 9, 9] 24 80) "\\x00" .forward)
      = editor_offset_at_cursor (init_editor [9, 9, 9, 9] 24 80) + 1 ∧
    (editor_process_search (init_editor [9, 9, 9, 9] 24 80)
        "\\x00" .forward).status_message = "" ∧
    (editor_process_search (init_editor [9, 9, 9, 9] 24 80)
        "\\x00" .forward).status_severity = .info :=
  C10_search_nul_terminated (init_editor [9, 9, 9, 9] 24 80) (by decide) (by decide) (by decide)

/-- Claim C1, counterexample to the original claim: an append is also
recorded on an empty buffer (on an empty file the cursor produces offset 0,
and `a` inserts with after=true, recording APPEND at offset 0), and undoing
that record is not a restoration.  `editor_undo` calls
`editor_delete_char_at_offset` at offset 0+1 = 1 on the resulting 1-byte
buffer (editor.c line 1206); offset 1 is outside the delete's defined
domain, and the `memmove` size the C computes there in `unsigned`
arithmetic (editor.c line 238) underflows to `2 ^ 32 - 1` — a wild ~4 GiB
out-of-bounds read, undefined behaviour instead of the empty buffer the
original claim promises. -/
theorem C1_append_empty_undo_underflow :
    editor_offset_at_cursor (init_editor [] 24 80) = 0 ∧
    (run_edits (init_editor [] 24 80) [edit.app 0 5]).undo_list.acts
      = [⟨action_type.append, 0, 5⟩] ∧
    (run_edits (init_editor [] 24 80) [edit.app 0 5]).undo_list.status
      = curr_pos.node ∧
    content_length (run_edits (init_editor [] 24 80) [edit.app 0 5]) = 1 ∧
    ¬ 0 + 1 < (run_edits (init_editor [] 24 80) [edit.app 0 5]).contents.length ∧
    delete_memmove_size
        (content_length (run_edits (init_editor [] 24 80) [edit.app 0 5])) (0 + 1)
      = 2 ^ 32 - 1 ∧
    content_length (run_edits (init_editor [] 24 80) [edit.app 0 5]) - (0 + 1) - 1
      < 0 := by
  refine ⟨by decide, rfl, rfl, rfl, by decide, by decide, by decide⟩

end Hx
